import Mathlib

/-!
Verification of the fluent JSON-schema builder library.

The source is a JavaScript library building JSON Schema draft-07 documents
through chained calls.  We embed the internal builder state as a JavaScript
value (an ordered association list of string keys, mirroring JS object
key-insertion order) and translate each operation of the source into a pure
Lean function over that state.
-/

namespace FluentJS

/-- Model of a JavaScript (JSON-ish) runtime value.  "undef" is the JS
undefined value, "reqSym" is the REQUIRED symbol sentinel used by the library
in "required" lists.  Objects are ordered association lists, mirroring JS
key-insertion order. -/
inductive JValue where
  | undef : JValue
  | jnull : JValue
  | bool (b : Bool) : JValue
  | num (n : Int) : JValue
  | str (s : String) : JValue
  | arr (elems : List JValue) : JValue
  | obj (fields : List (String × JValue)) : JValue
  | reqSym : JValue
deriving Repr

abbrev JObj := List (String × JValue)

/-- Reading a field of a JS object: absent keys read as undefined. -/
def jget (o : JObj) (k : String) : JValue :=
  match o.find? (fun p => p.1 = k) with
  | some p => p.2
  | none => JValue.undef

/-- Key membership of a JS object. -/
def hasKey (o : JObj) (k : String) : Bool :=
  o.any (fun p => p.1 = k)

/-- Assigning a field of a JS object: an existing key keeps its position and
gets the new value, a new key is appended (JS insertion-order semantics). -/
def jset (o : JObj) (k : String) (v : JValue) : JObj :=
  match o with
  | [] => [(k, v)]
  | p :: rest => if p.1 = k then (k, v) :: rest else p :: jset rest k v

/-- Spreading the fields of "s" over "t", as in the JS literal with t spread
first and then s spread: each field of s is assigned in order. -/
def jassign (t s : JObj) : JObj :=
  s.foldl (fun acc p => jset acc p.1 p.2) t

/-- The "omit" helper of the source: rebuild the object keeping only keys not
in the given list, preserving order. -/
def jomit (o : JObj) (ks : List String) : JObj :=
  o.filter (fun p => !(ks.contains p.1))

/-- JS truthiness. -/
def truthy : JValue → Bool
  | .undef => false
  | .jnull => false
  | .bool b => b
  | .num n => n ≠ 0
  | .str s => s ≠ ""
  | .arr _ => true
  | .obj _ => true
  | .reqSym => true

/-- View a value as a JS array for the spread/length operations the source
performs on fields it created as arrays; non-arrays give the empty list. -/
def asArr : JValue → List JValue
  | .arr xs => xs
  | _ => []

/-- View a value as object fields: spreading a non-object contributes no
fields (primitives have no own enumerable properties). -/
def asFields : JValue → JObj
  | .obj fs => fs
  | _ => []

/-- The "last" helper of the source: last element of an array, if any. -/
def lastJ (xs : List JValue) : Option JValue :=
  xs.getLast?

/-- JS strict equality on the values that occur in "required" lists:
primitives and the REQUIRED symbol compare by value; two object or array
values compare as distinct (the source only ever compares required-list
entries, which are strings or the REQUIRED symbol, so reference equality of
objects is not needed). -/
def jsEqPrim : JValue → JValue → Bool
  | .undef, .undef => true
  | .jnull, .jnull => true
  | .bool a, .bool b => a = b
  | .num a, .num b => a = b
  | .str a, .str b => a = b
  | .reqSym, .reqSym => true
  | _, _ => false

/-- The "isUniq" helper of the source: every element occurs at its own first
index, i.e. no element occurs twice. -/
def isUniq : List JValue → Bool
  | [] => true
  | x :: rest => ¬ rest.any (jsEqPrim x) && isUniq rest

/-- The "flat" helper of the source: fold a list of named entries into a JS
object mapping each entry name to its remaining fields.  A later entry with
the same name overwrites the value of an earlier one. -/
def flatJ (entries : List JValue) : JObj :=
  entries.foldl
    (fun memo e =>
      match jget (asFields e) "name" with
      | .str n => jset memo n (.obj (jomit (asFields e) ["name"]))
      | _ => memo)
    []

/-- JS typeof. -/
def typeofJS : JValue → String
  | .undef => "undefined"
  | .jnull => "object"
  | .bool _ => "boolean"
  | .num _ => "number"
  | .str _ => "string"
  | .arr _ => "object"
  | .obj _ => "object"
  | .reqSym => "symbol"

/-- Keys of a JS object. -/
def keys (o : JObj) : List String := o.map Prod.fst

/-- A well-formed JS object has no duplicate keys. -/
abbrev NodupKeys (o : JObj) : Prop := (keys o).Nodup

/-- Number of keys of "Object.keys" applied to a value: array length for
arrays, field count for objects, character count for strings, zero for other
primitives. -/
def jsKeyCount : JValue → Nat
  | .arr xs => xs.length
  | .obj fs => fs.length
  | .str s => s.length
  | _ => 0

/-- Every element of the list is a JS string ("required.every of typeof v
equal to string" in valueOf). -/
def allStrings : List JValue → Bool
  | [] => true
  | .str _ :: rest => allStrings rest
  | _ => false

/-- View a value as a string (the source only interpolates strings here). -/
def asStr : JValue → String
  | .str s => s
  | _ => ""

/-- JS String.replace with the one-character string pattern "#": removes only
the first occurrence of the hash character. -/
def removeFirstHashAux : List Char → List Char
  | [] => []
  | c :: rest => if c = '#' then rest else c :: removeFirstHashAux rest

def replaceFirstHash (s : String) : String :=
  String.mk (removeFirstHashAux s.data)

/-- Checks for the combining keywords allOf, anyOf, oneOf, not
("hasCombiningKeywords" in the source). -/
def hasCombiningKeywords (a : JObj) : Bool :=
  truthy (jget a "allOf") ∨ truthy (jget a "anyOf") ∨
  truthy (jget a "oneOf") ∨ truthy (jget a "not")

def isUndef : JValue → Bool
  | .undef => true
  | _ => false

def isEmptyArr : JValue → Bool
  | .arr [] => true
  | _ => false

/-!
Serialization.  "BaseSchema.valueOf" destructures the special fields out of
the state, checks for unresolved required sentinels at the root, and then
assembles the output with Object.assign.  We split the assembly into a total
function so that the embedding of "valueOf" with isRoot false (which cannot
fail) stays a plain function.
-/

/-- The truthiness-guarded key count the source computes on the destructured
definitions and properties fields ("Object.keys of the field or the empty
array"). -/
def nonemptyCount (v : JValue) : Bool :=
  0 < jsKeyCount (if truthy v then v else .arr [])

/-- The remaining-attributes section of valueOf: the state minus the four
destructured fields, minus the conditional keywords carried separately. -/
def restSection (s : JObj) : JObj :=
  jomit (jomit s ["properties", "definitions", "required", "$schema"]) ["if", "then", "else"]

/-- Step 1 of the Object.assign chain of "BaseSchema.valueOf": the target,
holding the dollar-schema field when truthy. -/
def vo1 (s : JObj) : JObj :=
  if truthy (jget s "$schema") then [("$schema", jget s "$schema")] else []

/-- Step 2: assign the flattened definitions when nonempty. -/
def vo2 (s : JObj) : JObj :=
  if nonemptyCount (jget s "definitions")
  then jassign (vo1 s) [("definitions", .obj (flatJ (asArr (jget s "definitions"))))]
  else vo1 s

/-- Step 3: assign the remaining root attributes except if, then, else. -/
def vo3 (s : JObj) : JObj :=
  jassign (vo2 s) (restSection s)

/-- Step 4: assign the flattened properties when nonempty. -/
def vo4 (s : JObj) : JObj :=
  if nonemptyCount (jget s "properties")
  then jassign (vo3 s) [("properties", .obj (flatJ (asArr (jget s "properties"))))]
  else vo3 s

/-- Step 5: assign the required list when present and nonempty. -/
def vo5 (s : JObj) : JObj :=
  if truthy (jget s "required") && 0 < (asArr (jget s "required")).length
  then jassign (vo4 s) [("required", jget s "required")]
  else vo4 s

/-- Steps 6 to 8: assign if, then, else when truthy. -/
def vo6 (s : JObj) : JObj :=
  if truthy (jget s "if") then jassign (vo5 s) [("if", jget s "if")] else vo5 s

def vo7 (s : JObj) : JObj :=
  if truthy (jget s "then") then jassign (vo6 s) [("then", jget s "then")] else vo6 s

def vo8 (s : JObj) : JObj :=
  if truthy (jget s "else") then jassign (vo7 s) [("else", jget s "else")] else vo7 s

/-- The Object.assign assembly step of "BaseSchema.valueOf": the chain of the
eight assignments above. -/
def assembleValue (schema : JObj) : JObj :=
  vo8 schema

/-- Embedding of "BaseSchema.valueOf": at the root, a required list holding a
value that is not a plain string (an unresolved sentinel) raises a
FluentSchemaError. -/
def valueOfE (schema : JObj) (isRoot : Bool) : Except String JObj :=
  if isRoot ∧ truthy (jget schema "required") ∧
      ¬ allStrings (asArr (jget schema "required")) then
    .error "required has been called on a root-level schema"
  else
    .ok (assembleValue schema)

/-- Embedding of "patchIdsWithParentId".  Rewrites the dollar-id of every
entry of the (already serialized, keyed) properties map: an entry without an
explicit id gets a synthesized one when generateIds is on, and when both
generateIds and a parent id are given the id is prefixed with the parent id
path (with the leading hash of the child id stripped). -/
def patchIdsWithParentId (generateIds : Bool) (parentId : JValue) (schema : JObj) : JObj :=
  let pv := jget schema "properties"
  let properties := asFields (if truthy pv then pv else .obj [])
  if properties.length = 0 then schema
  else
    let newProps := properties.foldl
      (fun memo kp =>
        let key := kp.1
        let props := asFields kp.2
        let idv := if truthy (jget props "$id") then jget props "$id"
                   else if generateIds then .str ("#properties/" ++ key) else .undef
        let idv2 := if generateIds ∧ truthy parentId
                    then .str (asStr parentId ++ "/" ++ replaceFirstHash (asStr idv))
                    else idv
        jset memo key (.obj (jset props "$id" idv2)))
      []
    jset schema "properties" (.obj newProps)

/-- The reduce of "appendRequired": REQUIRED sentinels become the property
name on the schema side, every other entry stays on the attributes side. -/
def requiredReduce (name : JValue) (items : List JValue) : List JValue × List JValue :=
  items.foldl
    (fun (acc : List JValue × List JValue) item =>
      match item with
      | .reqSym => (acc.1 ++ [name], acc.2)
      | _ => (acc.1, acc.2 ++ [item]))
    ([], [])

/-- Embedding of "appendRequired".  The attributes argument carries the
property name; every REQUIRED sentinel inside the attributes required list is
resolved to that name and moved to the schema required list, other entries
stay on the attributes.  Fails when the patched schema required list has a
repeated entry.  Returns the patched schema and the patched attributes. -/
def appendRequired (schema : JObj) (attrs : JObj) : Except String (JObj × JObj) :=
  let name := jget attrs "name"
  let required := jget attrs "required"
  let attributes := jomit attrs ["name", "required"]
  let pair := requiredReduce name (asArr (if truthy required then required else .arr []))
  let patchedRequired := asArr (jget schema "required") ++ pair.1
  if ¬ isUniq patchedRequired then
    .error "required has repeated keys, check your calls to required"
  else
    .ok (jset schema "required" (.arr patchedRequired),
         jset attributes "required" (.arr pair.2))

/-- Argument of "prop": either a fluent builder (represented by its internal
state) or a plain JS object.  The source raises on arrays and non-object
values before doing anything; those cases settle no claim here and are not
represented. -/
inductive PropArg where
  | fluent (state : JObj) : PropArg
  | plain (o : JObj) : PropArg

/-- The source calls "props.valueOf" with isRoot false: on a fluent builder
this serializes the state (never failing, isRoot is false), on a plain object
the default Object.prototype.valueOf returns the object itself. -/
def propArgValue : PropArg → JObj
  | .fluent s => assembleValue s
  | .plain o => o

def propArgIsFluent : PropArg → Bool
  | .fluent _ => true
  | .plain _ => false

/-- The "def" marker routing an entry to definitions: builders have no such
field, a plain object carries it when set by "definition". -/
def propArgDef : PropArg → Bool
  | .fluent _ => false
  | .plain o => truthy (jget o "def")

/-- Embedding of "ObjectSchema.prop". -/
def propOp (generateIds : Bool) (schema : JObj) (name : String) (arg : PropArg) :
    Except String JObj := do
  let target := if propArgDef arg then "definitions" else "properties"
  let attributes0 := propArgValue arg
  let idv := if truthy (jget attributes0 "$id") then jget attributes0 "$id"
             else if generateIds then .str ("#" ++ target ++ "/" ++ name) else .undef
  let sa ←
    if propArgIsFluent arg then
      let patched := patchIdsWithParentId generateIds idv attributes0
      appendRequired schema (jset patched "name" (.str name))
    else
      .ok (schema, attributes0)
  let schema1 := sa.1
  let attributes1 := sa.2
  let typeV := if hasCombiningKeywords attributes1 then .undef else jget attributes1 "type"
  let refV := jget attributes1 "$ref"
  let merged := jassign attributes1 [("$id", idv), ("type", typeV)]
  let attributes2 := merged.filter (fun p =>
    ¬ (p.1 = "$schema" ∨ p.1 = "def" ∨ isUndef p.2 ∨
       (isEmptyArr p.2 ∧ p.1 ≠ "default")))
  let entry : JObj :=
    if truthy refV then [("name", .str name), ("$ref", refV)]
    else jassign [("name", .str name)] attributes2
  .ok (jset schema1 target (.arr (asArr (jget schema1 target) ++ [.obj entry])))

/-- Embedding of "setAttribute": with a most recently declared property the
keyword is merged onto it through another "prop" call with a plain object
(the object literal lists the new keyword first and then spreads the existing
attributes over it), otherwise the keyword is set on the root state. -/
def setAttributeOp (generateIds : Bool) (schema : JObj) (key : String) (value : JValue) :
    Except String JObj :=
  match lastJ (asArr (jget schema "properties")) with
  | some cp =>
      let name := asStr (jget (asFields cp) "name")
      let props := jomit (asFields cp) ["name"]
      propOp generateIds schema name (.plain (jassign [(key, value)] props))
  | none => .ok (jset schema key value)

/-- Embedding of "setRaw": like setAttribute but with a whole fragment spread
in place of the single keyword. -/
def setRawOp (generateIds : Bool) (schema : JObj) (raw : JObj) :
    Except String JObj :=
  match lastJ (asArr (jget schema "properties")) with
  | some cp =>
      let name := asStr (jget (asFields cp) "name")
      let props := jomit (asFields cp) ["name"]
      propOp generateIds schema name (.plain (jassign raw props))
  | none => .ok (jassign schema raw)

/-- Embedding of "BaseSchema.required".  A list argument is appended in bulk;
with no argument the most recently declared property name is appended, or the
REQUIRED sentinel when there is no property yet.  Fails on a repeated
entry. -/
def requiredOp (schema : JObj) (props : Option (List JValue)) : Except String JObj :=
  let currentProp := lastJ (asArr (jget schema "properties"))
  let required : List JValue :=
    match props with
    | some l => asArr (jget schema "required") ++ l
    | none =>
      match currentProp with
      | some cp => asArr (jget schema "required") ++ [jget (asFields cp) "name"]
      | none => [.reqSym]
  if ¬ isUniq required then
    .error "required has repeated keys, check your calls to required"
  else
    .ok (jset schema "required" (.arr required))

/-- Embedding of "BaseSchema.id": only a falsy argument (the empty string)
is rejected; a truthy argument goes through setAttribute. -/
def idOp (generateIds : Bool) (schema : JObj) (id : JValue) : Except String JObj :=
  if ¬ truthy id then
    .error "id should not be an empty fragment or an empty string"
  else
    setAttributeOp generateIds schema "$id" id

/-- Embedding of "ObjectSchema.id": same falsy check, but always sets the id
on the root state. -/
def idObjOp (schema : JObj) (id : JValue) : Except String JObj :=
  if ¬ truthy id then
    .error "id should not be an empty fragment or an empty string"
  else
    .ok (jset schema "$id" id)

/-- Embedding of "ObjectSchema.definition": a "prop" call on a plain object
made of the serialized sub-schema with the def marker set. -/
def definitionOp (generateIds : Bool) (schema : JObj) (name : String) (subState : JObj) :
    Except String JObj :=
  propOp generateIds schema name (.plain (jset (assembleValue subState) "def" (.bool true)))

/-!
Raw schema ingestion.
-/

/-- Embedding of the "toArray" helper: a truthy object value is re-expanded
from a keyed map into a list of named entries (the entry literal lists the
name first and then spreads the value over it); a falsy value yields the JS
undefined, which the caller replaces by the empty list. -/
def toArrayJ : JValue → Option (List JValue)
  | .obj fields =>
      some (fields.map fun p => .obj (jassign [("name", .str p.1)] (asFields p.2)))
  | v => if truthy v then some [] else none

/-- Errors of the raw ingestion entry point: the FluentSchemaError raised by
the explicit guard, or the JS TypeError raised when destructuring null. -/
inductive JErr where
  | fluent (msg : String) : JErr
  | typeError (msg : String) : JErr
deriving Repr

/-- Spreading a JS array into an object literal yields its index-keyed
enumerable entries. -/
def arrSpreadFields (xs : List JValue) : JObj :=
  xs.enum.map fun p => (toString p.1, p.2)

/-- The object branch of "RawSchema": dispatch on the type field of the
fragment, rebuilding the internal state of the matching kind. -/
def rawDispatch (fields : JObj) : Except JErr JObj :=
  let typeV := jget fields "type"
  let props := jomit fields ["type", "definitions", "properties", "required"]
  match typeV with
  | .str "string" => .ok (jassign [("type", typeV)] props)
  | .str "integer" => .ok (jassign [("type", typeV)] props)
  | .str "number" => .ok (jassign [("type", typeV)] props)
  | .str "boolean" => .ok (jassign [("type", typeV)] props)
  | .str "object" =>
      let defs := (toArrayJ (jget fields "definitions")).getD []
      let propsL := (toArrayJ (jget fields "properties")).getD []
      let req := if truthy (jget fields "required")
                 then jget fields "required" else .arr []
      .ok (jassign [("type", typeV), ("definitions", .arr defs),
                    ("properties", .arr propsL), ("required", req)] props)
  | .str "array" => .ok (jassign [("type", typeV)] props)
  | _ => .ok props

/-- Embedding of "RawSchema": returns the internal state of the builder the
entry point constructs, or the error it raises.  An undefined argument takes
the default parameter (the empty object).  The typeof guard admits null and
arrays (typeof is "object" for both); destructuring null then raises a
TypeError, while an array flows through the default branch. -/
def rawSchemaE (v : JValue) : Except JErr JObj :=
  let v := match v with | .undef => .obj [] | x => x
  if typeofJS v ≠ "object" then
    .error (.fluent "A fragment must be a JSON object")
  else
    match v with
    | .jnull => .error (.typeError "Cannot destructure property type of null")
    | .arr xs =>
        -- an array never carries a "type" string field, so the switch falls
        -- through to the default branch keeping the spread of the array
        .ok (jomit (arrSpreadFields xs) ["type", "definitions", "properties", "required"])
    | .obj fields => rawDispatch fields
    | _ => .error (.fluent "unreachable")

/-!
Initial states of the factories, from the source.
-/

/-- Initial state of the root factory "S" (and of the builders it derives:
the root state is threaded into the per-kind factories before "as" sets the
type). -/
def initialStateS : JObj :=
  [("$schema", .str "http://json-schema.org/draft-07/schema#"),
   ("definitions", .arr []),
   ("properties", .arr []),
   ("required", .arr [])]

/-- State of a builder produced by the root factory selecting a kind:
the per-kind factory wraps the root state and "as" appends the type keyword
(the properties list is empty, so setAttribute takes the root branch). -/
def kindState (t : String) : JObj :=
  jset initialStateS "type" (.str t)

/-!
Store-passing view of the fluent calls, for the immutability property.  A
factory call such as ObjectSchema evaluates the spread of BaseSchema at
construction: the methods BaseSchema returns (the keyword setters, raw,
required, valueOf, the id of the non-object kinds) close over the state
value passed to BaseSchema then, while the methods the object factory itself
defines (prop, definition, id, additionalProperties, only, without, extend)
close over the factory parameter binding.  The fluent branch of prop ends
with the assignment of schemaPatched to that parameter, the one place the
source writes a binding of an existing builder; the state objects themselves
are built from fresh literals and spreads and never mutated in place.  We
mirror this as a store of builders, each holding the two bindings.
-/

/-- The value of the object factory schema binding after a prop call: with a
fluent argument the source computes schemaPatched through appendRequired and
assigns it to the closed-over binding; a plain object argument skips the
fluent branch, and a failing appendRequired throws before the assignment,
leaving the binding as it was. -/
def propSchemaAfter (generateIds : Bool) (schema : JObj) (name : String)
    (arg : PropArg) : JObj :=
  let target := if propArgDef arg then "definitions" else "properties"
  let attributes0 := propArgValue arg
  let idv := if truthy (jget attributes0 "$id") then jget attributes0 "$id"
             else if generateIds then .str ("#" ++ target ++ "/" ++ name) else .undef
  if propArgIsFluent arg then
    match appendRequired schema
        (jset (patchIdsWithParentId generateIds idv attributes0) "name" (.str name)) with
    | .ok sa => sa.1
    | .error _ => schema
  else schema

/-- A builder: the state captured by the BaseSchema methods at construction,
and the current value of the factory parameter binding that the object-level
methods close over.  A factory call starts the two equal; only the fluent
branch of prop ever reassigns the second. -/
structure Builder where
  baseSchema : JObj
  objSchema : JObj

/-- Allocating a builder from a factory call: both bindings hold the
constructed state. -/
def mkBuilder (s : JObj) : Builder := ⟨s, s⟩

/-- One fluent call together with its argument. -/
inductive FluentCall where
  | attr (key : String) (value : JValue) : FluentCall
  | attrObject (key : String) (value : JValue) : FluentCall
  | rawFrag (fragment : JObj) : FluentCall
  | requiredCall (props : Option (List JValue)) : FluentCall
  | propCall (name : String) (arg : PropArg) : FluentCall
  | defCall (name : String) (sub : JObj) : FluentCall
  | idBase (id : JValue) : FluentCall
  | idObject (id : JValue) : FluentCall

/-- Dispatch a fluent call to the embedded operation on a builder state. -/
def applyCall (generateIds : Bool) (s : JObj) : FluentCall → Except String JObj
  | .attr k v => setAttributeOp generateIds s k v
  | .attrObject k v => setAttributeOp generateIds s k v
  | .rawFrag r => setRawOp generateIds s r
  | .requiredCall p => requiredOp s p
  | .propCall n a => propOp generateIds s n a
  | .defCall n sub => definitionOp generateIds s n sub
  | .idBase i => idOp generateIds s i
  | .idObject i => idObjOp s i

/-- The binding a call reads: attr, rawFrag, requiredCall and idBase stand
for the BaseSchema methods, which read the state captured at construction;
attrObject stands for the keyword setters the object factory defines (such
as additionalProperties), which, like propCall, defCall and idObject, read
the factory parameter binding. -/
def readState (b : Builder) : FluentCall → JObj
  | .attr _ _ => b.baseSchema
  | .rawFrag _ => b.baseSchema
  | .requiredCall _ => b.baseSchema
  | .idBase _ => b.baseSchema
  | .attrObject _ _ => b.objSchema
  | .propCall _ _ => b.objSchema
  | .defCall _ _ => b.objSchema
  | .idObject _ => b.objSchema

/-- The callee after a successful call: the fluent branch of prop assigns
schemaPatched to the factory parameter binding; every other method leaves
both bindings as they were (definition and the keyword setters route through
fresh factory wrappers, whose own bindings are the ones their inner prop
call touches). -/
def calleeAfter (generateIds : Bool) (b : Builder) : FluentCall → Builder
  | .propCall n a => ⟨b.baseSchema, propSchemaAfter generateIds b.objSchema n a⟩
  | _ => b

/-- A store of builders; a builder reference is an address into the store. -/
abbrev Store := List Builder

/-- A fluent call on a builder address: read the binding the method closes
over, run the operation, commit the reassignment of the callee (the identity
except for the fluent branch of prop), and allocate the resulting builder at
a fresh address.  A throw commits nothing: the assignment in prop stands
after the appendRequired call that throws. -/
def applyCallRef (generateIds : Bool) (h : Store) (r : Nat) (c : FluentCall) :
    Except String (Store × Nat) :=
  let b := h.getD r (mkBuilder [])
  match applyCall generateIds (readState b c) c with
  | .ok s => .ok ((h.set r (calleeAfter generateIds b c)) ++ [mkBuilder s], h.length)
  | .error e => .error e

/-- Top-level deep equality of two JS objects as used by the round-trip
property: the same keys give the same (structurally equal) values, key order
and absent-versus-undefined being indistinguishable to a JS consumer. -/
def DeepEqualTop (a b : JObj) : Prop := ∀ k, jget a k = jget b k

/-- Well-formedness of a serialized keyed map (properties or definitions of
an already serialized object schema): unique keys, and every value is an
object that carries no "name" field and itself has unique keys. -/
def FlatMapOK (m : JObj) : Prop :=
  NodupKeys m ∧ ∀ p ∈ m, ∃ f, p.2 = JValue.obj f ∧ hasKey f "name" = false ∧ NodupKeys f

/-- Shape of a serialized simple-kind schema (string, integer, number,
boolean, array): a type tag from the listed kinds and no structural
fields. -/
def SimpleKindOK (o : JObj) : Prop :=
  (∃ t, jget o "type" = JValue.str t ∧
    t ∈ (["string", "integer", "number", "boolean", "array"] : List String)) ∧
  hasKey o "properties" = false ∧ hasKey o "definitions" = false ∧
  hasKey o "required" = false

/-- Shape of a serialized object-kind schema: type tag "object"; properties
and definitions, when present, are nonempty well-formed keyed maps; required,
when present, is a nonempty list of strings. -/
def ObjectKindOK (o : JObj) : Prop :=
  jget o "type" = JValue.str "object" ∧
  (hasKey o "definitions" = false ∨
    ∃ m, jget o "definitions" = JValue.obj m ∧ m ≠ [] ∧ FlatMapOK m) ∧
  (hasKey o "properties" = false ∨
    ∃ m, jget o "properties" = JValue.obj m ∧ m ≠ [] ∧ FlatMapOK m) ∧
  (hasKey o "required" = false ∨
    ∃ l, jget o "required" = JValue.arr l ∧ l ≠ [] ∧ allStrings l = true)

/-- Shape of a serialized type-less base fragment: no type tag and no
structural fields. -/
def BaseKindOK (o : JObj) : Prop :=
  hasKey o "type" = false ∧ hasKey o "properties" = false ∧
  hasKey o "definitions" = false ∧ hasKey o "required" = false

/-- Common well-formedness of any serialized root document: unique keys, and
the fields valueOf emits only when truthy are truthy when present. -/
def SerializedOK (o : JObj) : Prop :=
  NodupKeys o ∧
  (hasKey o "$schema" = true → truthy (jget o "$schema") = true) ∧
  (hasKey o "if" = true → truthy (jget o "if") = true) ∧
  (hasKey o "then" = true → truthy (jget o "then") = true) ∧
  (hasKey o "else" = true → truthy (jget o "else") = true)

/-!
Basic lemmas about the JS object operations.
-/

theorem jget_nil (k : String) : jget [] k = .undef := rfl

theorem jget_cons (p : String × JValue) (o : JObj) (k : String) :
    jget (p :: o) k = if p.1 = k then p.2 else jget o k := by
  simp only [jget, List.find?]
  by_cases h : p.1 = k <;> simp [h]

theorem jget_cons_pair (k1 : String) (v : JValue) (o : JObj) (k : String) :
    jget ((k1, v) :: o) k = if k1 = k then v else jget o k := by
  rw [jget_cons]

theorem hasKey_nil (k : String) : hasKey [] k = false := rfl

theorem hasKey_cons (p : String × JValue) (o : JObj) (k : String) :
    hasKey (p :: o) k = (decide (p.1 = k) || hasKey o k) := by
  simp [hasKey]

theorem hasKey_cons_false (p : String × JValue) (o : JObj) (k : String)
    (h : hasKey (p :: o) k = false) : p.1 ≠ k ∧ hasKey o k = false := by
  rw [hasKey_cons] at h
  simpa using h

theorem jget_eq_undef_of_not_hasKey (o : JObj) (k : String) (h : hasKey o k = false) :
    jget o k = .undef := by
  induction o with
  | nil => rfl
  | cons p rest ih =>
      obtain ⟨h1, h2⟩ := hasKey_cons_false p rest k h
      rw [jget_cons, if_neg h1]
      exact ih h2

theorem jset_of_not_hasKey (o : JObj) (k : String) (v : JValue) (h : hasKey o k = false) :
    jset o k v = o ++ [(k, v)] := by
  induction o with
  | nil => rfl
  | cons p rest ih =>
      obtain ⟨h1, h2⟩ := hasKey_cons_false p rest k h
      simp only [jset, if_neg h1, List.cons_append]
      rw [ih h2]

theorem jget_jset_same (o : JObj) (k : String) (v : JValue) :
    jget (jset o k v) k = v := by
  induction o with
  | nil => simp [jset, jget_cons]
  | cons p rest ih =>
      simp only [jset]
      by_cases h : p.1 = k
      · rw [if_pos h, jget_cons, if_pos rfl]
      · rw [if_neg h, jget_cons, if_neg h]
        exact ih

theorem jget_jset_other (o : JObj) (k k2 : String) (v : JValue) (h : k ≠ k2) :
    jget (jset o k v) k2 = jget o k2 := by
  induction o with
  | nil => simp [jset, jget_cons, jget_nil, h]
  | cons p rest ih =>
      simp only [jset]
      by_cases hp : p.1 = k
      · rw [if_pos hp, jget_cons, jget_cons, if_neg h, if_neg (hp ▸ h)]
      · rw [if_neg hp, jget_cons, jget_cons]
        by_cases hp2 : p.1 = k2
        · rw [if_pos hp2, if_pos hp2]
        · rw [if_neg hp2, if_neg hp2]
          exact ih

theorem hasKey_jset (o : JObj) (k k2 : String) (v : JValue) :
    hasKey (jset o k v) k2 = (decide (k = k2) || hasKey o k2) := by
  induction o with
  | nil => simp [jset, hasKey]
  | cons p rest ih =>
      simp only [jset]
      by_cases hp : p.1 = k
      · rw [if_pos hp, hasKey_cons, hasKey_cons, hp]
        cases hr : decide (k = k2) <;> simp [hr]
      · rw [if_neg hp, hasKey_cons, hasKey_cons, ih]
        cases hq : decide (p.1 = k2) <;> cases hr : decide (k = k2) <;> simp

theorem jget_append (a b : JObj) (k : String) :
    jget (a ++ b) k = if hasKey a k then jget a k else jget b k := by
  induction a with
  | nil => simp [hasKey]
  | cons p rest ih =>
      rw [List.cons_append, jget_cons, jget_cons]
      by_cases hp : p.1 = k
      · rw [if_pos hp, if_pos (by rw [hasKey_cons]; simp [hp]), if_pos hp]
      · rw [if_neg hp, if_neg hp, ih, hasKey_cons]
        simp [hp]

theorem hasKey_append (a b : JObj) (k : String) :
    hasKey (a ++ b) k = (hasKey a k || hasKey b k) := by
  simp [hasKey, List.any_append]

theorem hasKey_jomit_mem (o : JObj) (ks : List String) (k : String) (h : k ∈ ks) :
    hasKey (jomit o ks) k = false := by
  simp only [jomit, hasKey, List.any_eq_false]
  intro p hp
  rcases List.mem_filter.mp hp with ⟨_, hpk⟩
  simp only [Bool.not_eq_true', decide_eq_false_iff_not] at hpk ⊢
  intro hk
  have hpk2 : p.1 = k := of_decide_eq_true hk
  have : ks.contains p.1 = true := List.elem_iff.mpr (by rwa [hpk2])
  rw [this] at hpk
  exact Bool.noConfusion hpk

theorem jget_jomit_not_mem (o : JObj) (ks : List String) (k : String) (h : k ∉ ks) :
    jget (jomit o ks) k = jget o k := by
  induction o with
  | nil => rfl
  | cons p rest ih =>
      simp only [jomit, List.filter]
      cases hp : ks.contains p.1 with
      | true =>
          simp only [hp, Bool.not_true]
          rw [jget_cons, if_neg]
          · exact ih
          · intro hk
            exact h (hk ▸ List.elem_iff.mp hp)
      | false =>
          simp only [hp, Bool.not_false]
          rw [jget_cons, jget_cons]
          by_cases hq : p.1 = k
          · rw [if_pos hq, if_pos hq]
          · rw [if_neg hq, if_neg hq]
            exact ih

theorem keys_jomit_sublist (o : JObj) (ks : List String) :
    List.Sublist (keys (jomit o ks)) (keys o) := by
  simpa [keys, jomit] using List.Sublist.map Prod.fst (List.filter_sublist o)

theorem nodupKeys_jomit (o : JObj) (ks : List String) (h : NodupKeys o) :
    NodupKeys (jomit o ks) :=
  (keys_jomit_sublist o ks).nodup h

theorem jassign_nil (t : JObj) : jassign t [] = t := rfl

theorem jassign_cons (t : JObj) (p : String × JValue) (s : JObj) :
    jassign t (p :: s) = jassign (jset t p.1 p.2) s := rfl

/-- Spreading fields whose keys are fresh for the target and mutually
distinct appends them in order. -/
theorem jassign_eq_append (t s : JObj) (hfresh : ∀ p ∈ s, hasKey t p.1 = false)
    (hnd : NodupKeys s) : jassign t s = t ++ s := by
  induction s generalizing t with
  | nil => simp [jassign]
  | cons p rest ih =>
      rw [jassign_cons, jset_of_not_hasKey t p.1 p.2 (hfresh p (List.mem_cons_self p rest))]
      have hnd1 : p.1 ∉ keys rest ∧ (keys rest).Nodup :=
        List.nodup_cons.mp (by simpa [keys, NodupKeys] using hnd)
      have hfresh2 : ∀ q ∈ rest, hasKey (t ++ [p]) q.1 = false := by
        intro q hq
        rw [hasKey_append, hfresh q (List.mem_cons_of_mem p hq)]
        simp only [Bool.false_or]
        rw [hasKey_cons, hasKey_nil]
        simp only [Bool.or_false, decide_eq_false_iff_not]
        intro hcontra
        exact hnd1.1 (hcontra ▸ (List.mem_map.mpr ⟨q, hq, rfl⟩))
      rw [ih (t ++ [p]) hfresh2 hnd1.2, List.append_assoc]
      simp

theorem hasKey_jassign (t s : JObj) (k : String) :
    hasKey (jassign t s) k = (hasKey t k || hasKey s k) := by
  induction s generalizing t with
  | nil => simp [jassign, hasKey]
  | cons p rest ih =>
      rw [jassign_cons, ih, hasKey_jset, hasKey_cons]
      cases h1 : decide (p.1 = k) <;> cases h2 : hasKey t k <;> simp

/-- Reading a key from the spread of s over t: under unique keys of s, the
value comes from s when present there and from t otherwise. -/
theorem jget_jassign (t s : JObj) (k : String) (hnd : NodupKeys s) :
    jget (jassign t s) k = if hasKey s k then jget s k else jget t k := by
  induction s generalizing t with
  | nil => simp [jassign, hasKey]
  | cons p rest ih =>
      have hnd1 : p.1 ∉ keys rest ∧ (keys rest).Nodup :=
        List.nodup_cons.mp (by simpa [keys, NodupKeys] using hnd)
      rw [jassign_cons, ih _ hnd1.2, hasKey_cons, jget_cons]
      by_cases hk : hasKey rest k
      · have hp1k : p.1 ≠ k := by
          intro hcontra
          apply hnd1.1
          subst hcontra
          simp only [hasKey, List.any_eq_true, decide_eq_true_eq] at hk
          rcases hk with ⟨q, hq, hq2⟩
          exact hq2 ▸ (List.mem_map.mpr ⟨q, hq, rfl⟩)
        simp [hk, hp1k]
      · by_cases hpk : p.1 = k
        · subst hpk
          simp [hk, jget_jset_same t p.1 p.2]
        · simp [hk, hpk, jget_jset_other t p.1 k p.2 hpk]

/-- The flatten helper on a list extended by one entry: the fold assigns the
new entry last, so its value overwrites any earlier entry of the same name
(value-wise last wins). -/
theorem flatJ_append_single (l : List JValue) (e : JValue) (nm : String)
    (h : jget (asFields e) "name" = .str nm) :
    flatJ (l ++ [e]) = jset (flatJ l) nm (.obj (jomit (asFields e) ["name"])) := by
  simp only [flatJ, List.foldl_append, List.foldl_cons, List.foldl_nil, h]

theorem jassign_single (o : JObj) (k : String) (v : JValue) (h : hasKey o k = false) :
    jassign o [(k, v)] = o ++ [(k, v)] := by
  show jset o k v = o ++ [(k, v)]
  exact jset_of_not_hasKey o k v h

theorem hasKey_ifsection (c : Prop) [Decidable c] (k2 : String) (v : JValue) (k : String)
    (h : k2 ≠ k) : hasKey (if c then [(k2, v)] else []) k = false := by
  split <;> simp [hasKey, h]

theorem hasKey_jomit_false_of (o : JObj) (ks : List String) (k : String)
    (h : hasKey o k = false) : hasKey (jomit o ks) k = false := by
  simp only [hasKey, List.any_eq_false] at h ⊢
  intro p hp
  exact h p (List.mem_filter.mp hp).1

theorem hasKey_restSection (s : JObj) (k : String)
    (h : k ∈ (["properties", "definitions", "required", "$schema",
               "if", "then", "else"] : List String)) :
    hasKey (restSection s) k = false := by
  unfold restSection
  by_cases h1 : k ∈ (["properties", "definitions", "required", "$schema"] : List String)
  · exact hasKey_jomit_false_of _ _ _ (hasKey_jomit_mem s _ k h1)
  · have h2 : k ∈ (["if", "then", "else"] : List String) := by
      simp only [List.mem_cons, List.mem_singleton, List.not_mem_nil, or_false] at h h1 ⊢
      tauto
    exact hasKey_jomit_mem _ _ k h2

theorem mem_restSection (s : JObj) (p : String × JValue) (hp : p ∈ restSection s) :
    p ∈ s ∧ p.1 ∉ (["properties", "definitions", "required", "$schema",
                    "if", "then", "else"] : List String) := by
  unfold restSection at hp
  have h2 := List.mem_filter.mp hp
  have h1 := List.mem_filter.mp h2.1
  refine ⟨h1.1, ?_⟩
  intro hmem
  have hb1 := h1.2
  have hb2 := h2.2
  simp only [List.mem_cons, List.mem_singleton, List.not_mem_nil, or_false] at hmem
  simp at hb1 hb2
  rcases hmem with h | h | h | h | h | h | h <;> simp_all

theorem assign_step (o : JObj) (c : Bool) (k : String) (v : JValue)
    (h : hasKey o k = false) :
    (if c then jassign o [(k, v)] else o) = o ++ (if c then [(k, v)] else []) := by
  cases c
  · simp
  · simp only [if_pos trivial]
    exact jassign_single o k v h

theorem hasKey_vo1 (s : JObj) (k : String) (hk : k ≠ "$schema") :
    hasKey (vo1 s) k = false := by
  unfold vo1
  exact hasKey_ifsection _ _ _ _ (fun hc => hk hc.symm)

theorem vo2_eq (s : JObj) :
    vo2 s = vo1 s ++ (if nonemptyCount (jget s "definitions")
      then [("definitions", .obj (flatJ (asArr (jget s "definitions"))))] else []) := by
  unfold vo2
  exact assign_step _ _ _ _ (hasKey_vo1 s "definitions" (by decide))

theorem hasKey_vo2 (s : JObj) (k : String) (h1 : k ≠ "$schema") (h2 : k ≠ "definitions") :
    hasKey (vo2 s) k = false := by
  rw [vo2_eq, hasKey_append, hasKey_vo1 s k h1,
    hasKey_ifsection _ _ _ _ (fun hc => h2 hc.symm)]
  rfl

theorem vo3_eq (s : JObj) (h : NodupKeys s) :
    vo3 s = vo2 s ++ restSection s := by
  unfold vo3
  refine jassign_eq_append _ _ ?_ (nodupKeys_jomit _ _ (nodupKeys_jomit _ _ h))
  intro p hp
  have hm := mem_restSection s p hp
  refine hasKey_vo2 s p.1 ?_ ?_
  · intro hc
    exact hm.2 (by rw [hc]; simp)
  · intro hc
    exact hm.2 (by rw [hc]; simp)

theorem hasKey_vo3 (s : JObj) (h : NodupKeys s) (k : String)
    (h1 : k ≠ "$schema") (h2 : k ≠ "definitions")
    (h3 : hasKey (restSection s) k = false) :
    hasKey (vo3 s) k = false := by
  rw [vo3_eq s h, hasKey_append, hasKey_vo2 s k h1 h2, h3]
  rfl

theorem vo4_eq (s : JObj) (h : NodupKeys s) :
    vo4 s = vo3 s ++ (if nonemptyCount (jget s "properties")
      then [("properties", .obj (flatJ (asArr (jget s "properties"))))] else []) := by
  unfold vo4
  exact assign_step _ _ _ _
    (hasKey_vo3 s h "properties" (by decide) (by decide)
      (hasKey_restSection s "properties" (by simp)))

theorem hasKey_vo4 (s : JObj) (h : NodupKeys s) (k : String)
    (h1 : k ≠ "$schema") (h2 : k ≠ "definitions") (h3 : k ≠ "properties")
    (h4 : hasKey (restSection s) k = false) :
    hasKey (vo4 s) k = false := by
  rw [vo4_eq s h, hasKey_append, hasKey_vo3 s h k h1 h2 h4,
    hasKey_ifsection _ _ _ _ (fun hc => h3 hc.symm)]
  rfl

theorem vo5_eq (s : JObj) (h : NodupKeys s) :
    vo5 s = vo4 s ++ (if truthy (jget s "required") && 0 < (asArr (jget s "required")).length
      then [("required", jget s "required")] else []) := by
  unfold vo5
  exact assign_step _ _ _ _
    (hasKey_vo4 s h "required" (by decide) (by decide) (by decide)
      (hasKey_restSection s "required" (by simp)))

theorem hasKey_vo5 (s : JObj) (h : NodupKeys s) (k : String)
    (h1 : k ≠ "$schema") (h2 : k ≠ "definitions") (h3 : k ≠ "properties")
    (h4 : k ≠ "required") (h5 : hasKey (restSection s) k = false) :
    hasKey (vo5 s) k = false := by
  rw [vo5_eq s h, hasKey_append, hasKey_vo4 s h k h1 h2 h3 h5,
    hasKey_ifsection _ _ _ _ (fun hc => h4 hc.symm)]
  rfl

theorem vo6_eq (s : JObj) (h : NodupKeys s) :
    vo6 s = vo5 s ++ (if truthy (jget s "if") then [("if", jget s "if")] else []) := by
  unfold vo6
  exact assign_step _ _ _ _
    (hasKey_vo5 s h "if" (by decide) (by decide) (by decide) (by decide)
      (hasKey_restSection s "if" (by simp)))

theorem hasKey_vo6 (s : JObj) (h : NodupKeys s) (k : String)
    (h1 : k ≠ "$schema") (h2 : k ≠ "definitions") (h3 : k ≠ "properties")
    (h4 : k ≠ "required") (h5 : k ≠ "if") (h6 : hasKey (restSection s) k = false) :
    hasKey (vo6 s) k = false := by
  rw [vo6_eq s h, hasKey_append, hasKey_vo5 s h k h1 h2 h3 h4 h6,
    hasKey_ifsection _ _ _ _ (fun hc => h5 hc.symm)]
  rfl

theorem vo7_eq (s : JObj) (h : NodupKeys s) :
    vo7 s = vo6 s ++ (if truthy (jget s "then") then [("then", jget s "then")] else []) := by
  unfold vo7
  exact assign_step _ _ _ _
    (hasKey_vo6 s h "then" (by decide) (by decide) (by decide) (by decide) (by decide)
      (hasKey_restSection s "then" (by simp)))

theorem hasKey_vo7 (s : JObj) (h : NodupKeys s) (k : String)
    (h1 : k ≠ "$schema") (h2 : k ≠ "definitions") (h3 : k ≠ "properties")
    (h4 : k ≠ "required") (h5 : k ≠ "if") (h6 : k ≠ "then")
    (h7 : hasKey (restSection s) k = false) :
    hasKey (vo7 s) k = false := by
  rw [vo7_eq s h, hasKey_append, hasKey_vo6 s h k h1 h2 h3 h4 h5 h7,
    hasKey_ifsection _ _ _ _ (fun hc => h6 hc.symm)]
  rfl

theorem vo8_eq (s : JObj) (h : NodupKeys s) :
    vo8 s = vo7 s ++ (if truthy (jget s "else") then [("else", jget s "else")] else []) := by
  unfold vo8
  exact assign_step _ _ _ _
    (hasKey_vo7 s h "else" (by decide) (by decide) (by decide) (by decide) (by decide)
      (by decide) (hasKey_restSection s "else" (by simp)))

/-- The Object.assign assembly of valueOf writes pairwise distinct keys, so
it is exactly the ordered concatenation of its eight sections. -/
theorem assembleValue_eq_append (s : JObj) (h : NodupKeys s) :
    assembleValue s =
      (if truthy (jget s "$schema") then [("$schema", jget s "$schema")] else [])
      ++ (if nonemptyCount (jget s "definitions")
          then [("definitions", .obj (flatJ (asArr (jget s "definitions"))))] else [])
      ++ restSection s
      ++ (if nonemptyCount (jget s "properties")
          then [("properties", .obj (flatJ (asArr (jget s "properties"))))] else [])
      ++ (if truthy (jget s "required") && 0 < (asArr (jget s "required")).length
          then [("required", jget s "required")] else [])
      ++ (if truthy (jget s "if") then [("if", jget s "if")] else [])
      ++ (if truthy (jget s "then") then [("then", jget s "then")] else [])
      ++ (if truthy (jget s "else") then [("else", jget s "else")] else []) := by
  show vo8 s = _
  rw [vo8_eq s h, vo7_eq s h, vo6_eq s h, vo5_eq s h, vo4_eq s h, vo3_eq s h, vo2_eq s]
  unfold vo1
  simp only [List.append_assoc]

/-!
Claim theorems.
-/

/-- Claim C2: the chain object, prop of a with a string sub-schema, a bare
required call and valueOf yields exactly the root document with the
draft-07 dollar-schema, type object, the property a of type string, and the
required list holding a: the no-argument required call resolves against the
immediately preceding prop of the same chain. -/
theorem claim_C2_required_sentinel_resolution :
    (do
      let obj0 ← setAttributeOp false initialStateS "type" (JValue.str "object")
      let str0 ← setAttributeOp false initialStateS "type" (JValue.str "string")
      let s1 ← propOp false obj0 "a" (.fluent str0)
      let s2 ← requiredOp s1 none
      valueOfE s2 true) =
    .ok [("$schema", .str "http://json-schema.org/draft-07/schema#"),
         ("type", .str "object"),
         ("properties", .obj [("a", .obj [("type", .str "string")])]),
         ("required", .arr [.str "a"])] := rfl

/-- Claim C7: evaluation of the id setter at the bare fragment input.  The
guard of the source only rejects falsy values, so the bare fragment, being a
truthy string, is accepted and stored as the dollar-id, although the error
message of the same guard names the bare fragment as invalid; the empty
string is rejected as documented. -/
theorem claim_C7_id_bare_fragment_accepted :
    idOp false (kindState "string") (.str "#") =
      .ok [("$schema", .str "http://json-schema.org/draft-07/schema#"),
           ("definitions", .arr []),
           ("properties", .arr []),
           ("required", .arr []),
           ("type", .str "string"),
           ("$id", .str "#")] ∧
    idOp false (kindState "string") (.str "") =
      .error "id should not be an empty fragment or an empty string" ∧
    (∀ v, idOp false (kindState "string") v =
      if truthy v then .ok (jset (kindState "string") "$id" v)
      else .error "id should not be an empty fragment or an empty string") := by
  refine ⟨rfl, rfl, ?_⟩
  intro v
  unfold idOp
  by_cases hv : truthy v
  · simp only [hv, Bool.not_true, if_pos, if_true]
    rfl
  · simp [hv]

/-- Claim C8 counterexample: a string builder carrying the dollar-schema in
its state, serialized as a nested sub-schema with isRoot false, still emits
the dollar-schema field: valueOf never strips it, whatever isRoot is. -/
theorem claim_C8_counterexample :
    valueOfE (kindState "string") false =
      .ok [("$schema", .str "http://json-schema.org/draft-07/schema#"),
           ("type", .str "string")] := rfl

/-- Claim C8 amended: for every builder state with unique keys, a successful
valueOf emits the dollar-schema field exactly when the state holds a truthy
one, with the same value, for both isRoot values; the stripping of the
dollar-schema for nested embedding is done by the embedding operations, not
by valueOf. -/
theorem claim_C8_amended (s : JObj) (b : Bool) (o : JObj) (h : NodupKeys s)
    (hok : valueOfE s b = .ok o) :
    hasKey o "$schema" = truthy (jget s "$schema") ∧
    (truthy (jget s "$schema") = true → jget o "$schema" = jget s "$schema") := by
  have ho : o = assembleValue s := by
    unfold valueOfE at hok
    split at hok
    · exact Except.noConfusion hok
    · exact (Except.ok.inj hok).symm
  subst ho
  rw [assembleValue_eq_append s h]
  have hrest : hasKey (restSection s) "$schema" = false :=
    hasKey_restSection s "$schema" (by simp)
  constructor
  · have hB : hasKey (if nonemptyCount (jget s "definitions")
        then [("definitions", JValue.obj (flatJ (asArr (jget s "definitions"))))]
        else []) "$schema" = false := by
      split <;> simp [hasKey]
    have hP : hasKey (if nonemptyCount (jget s "properties")
        then [("properties", JValue.obj (flatJ (asArr (jget s "properties"))))]
        else []) "$schema" = false := by
      split <;> simp [hasKey]
    have hQ : hasKey (if truthy (jget s "required") && 0 < (asArr (jget s "required")).length
        then [("required", jget s "required")] else []) "$schema" = false := by
      split <;> simp [hasKey]
    have hI : hasKey (if truthy (jget s "if") then [("if", jget s "if")] else [])
        "$schema" = false := by
      split <;> simp [hasKey]
    have hT : hasKey (if truthy (jget s "then") then [("then", jget s "then")] else [])
        "$schema" = false := by
      split <;> simp [hasKey]
    have hE : hasKey (if truthy (jget s "else") then [("else", jget s "else")] else [])
        "$schema" = false := by
      split <;> simp [hasKey]
    simp only [hasKey_append, hB, hP, hQ, hI, hT, hE, hrest, Bool.or_false, Bool.false_or]
    by_cases ht : truthy (jget s "$schema")
    · simp [ht, hasKey]
    · simp only [Bool.not_eq_true] at ht
      simp [ht, hasKey]
  · intro ht
    rw [jget_append]
    simp [ht, hasKey, jget_cons]

/-- Claim C8 amended, witnessed at a concrete string builder state. -/
theorem claim_C8_amended_witness :
    hasKey [("$schema", JValue.str "http://json-schema.org/draft-07/schema#"),
            ("type", JValue.str "string")] "$schema" =
      truthy (jget (kindState "string") "$schema") ∧
    (truthy (jget (kindState "string") "$schema") = true →
      jget [("$schema", JValue.str "http://json-schema.org/draft-07/schema#"),
            ("type", JValue.str "string")] "$schema" = jget (kindState "string") "$schema") :=
  claim_C8_amended (kindState "string") false _ (by unfold NodupKeys; decide) rfl

/-- Claim C10 counterexample: the raw ingestion entry point does not fail on
every non-plain-object input.  An array passes the typeof guard (typeof of an
array is the string object) and flows to the default branch, returning a
builder; null also passes the guard and then raises a TypeError from the
destructuring, not the FluentSchemaError the claim requires. -/
theorem claim_C10_counterexample :
    rawSchemaE (JValue.arr []) = .ok [] ∧
    rawSchemaE JValue.jnull =
      .error (.typeError "Cannot destructure property type of null") := ⟨rfl, rfl⟩

/-- Claim C10 amended: inputs whose typeof is not the string object (numbers,
strings, booleans, symbols) are rejected with the FluentSchemaError, except
that an undefined argument takes the empty-object default parameter; null
raises a TypeError from destructuring; an array returns a builder holding the
index-keyed spread of the array. -/
theorem claim_C10_amended :
    (∀ v, typeofJS v ≠ "object" → v ≠ JValue.undef →
      rawSchemaE v = .error (.fluent "A fragment must be a JSON object")) ∧
    rawSchemaE JValue.jnull =
      .error (.typeError "Cannot destructure property type of null") ∧
    (∀ xs, rawSchemaE (JValue.arr xs) =
      .ok (jomit (arrSpreadFields xs) ["type", "definitions", "properties", "required"])) := by
  refine ⟨?_, rfl, fun xs => rfl⟩
  intro v h1 h2
  cases v with
  | undef => exact absurd rfl h2
  | jnull => exact absurd rfl h1
  | bool b => rfl
  | num n => rfl
  | str s => rfl
  | arr xs => exact absurd rfl h1
  | obj fs => exact absurd rfl h1
  | reqSym => rfl

/-- Claim C10 amended, witnessed at a concrete number input. -/
theorem claim_C10_amended_witness :
    rawSchemaE (JValue.num 5) = .error (.fluent "A fragment must be a JSON object") :=
  claim_C10_amended.1 (JValue.num 5) (by decide) (fun h => JValue.noConfusion h)

/-- Claim C6 counterexample: under the root factory with generateIds on, an
explicit dollar-id myId set on a nested sub-schema (bar inside foo) is not
emitted unchanged: patchIdsWithParentId prefixes it with the parent id path,
yielding hash-properties-foo-slash-myId for bar. -/
theorem claim_C6_counterexample :
    (do
      let barSub ← idOp false (kindState "string") (.str "myId")
      let inner1 ← propOp false (kindState "object") "bar" (.fluent barSub)
      let inner2 ← requiredOp inner1 none
      let outer ← propOp true (kindState "object") "foo" (.fluent inner2)
      valueOfE outer true) =
    .ok [("$schema", .str "http://json-schema.org/draft-07/schema#"),
         ("type", .str "object"),
         ("properties", .obj
           [("foo", .obj
             [("type", .str "object"),
              ("properties", .obj
                [("bar", .obj
                  [("type", .str "string"),
                   ("$id", .str "#properties/foo/myId")])]),
              ("required", .arr [.str "bar"]),
              ("$id", .str "#properties/foo")])])] ∧
    ("#properties/foo/myId" : String) ≠ "myId" := ⟨rfl, by decide⟩

/-- Claim C6 amended: with generateIds on, a prop sub-schema without an
explicit dollar-id gets hash-properties-name, a definition sub-schema gets
hash-definitions-name, a nested sub-schema one level down gets the parent id
path prefixed, and an explicit dollar-id on the directly embedded sub-schema
is kept unchanged; but an explicit dollar-id on a nested sub-schema is
prefixed with the parent id path rather than kept.  First conjunct: the
two-level auto-id chain; second: the direct explicit id kept; third: a
definition auto-id; fourth: the nested explicit id prefixed. -/
theorem claim_C6_amended :
    (do
      let inner1 ← propOp false (kindState "object") "bar" (.fluent (kindState "string"))
      let inner2 ← requiredOp inner1 none
      let outer ← propOp true (kindState "object") "foo" (.fluent inner2)
      valueOfE outer true) =
    .ok [("$schema", .str "http://json-schema.org/draft-07/schema#"),
         ("type", .str "object"),
         ("properties", .obj
           [("foo", .obj
             [("type", .str "object"),
              ("properties", .obj
                [("bar", .obj
                  [("type", .str "string"),
                   ("$id", .str "#properties/foo/properties/bar")])]),
              ("required", .arr [.str "bar"]),
              ("$id", .str "#properties/foo")])])] ∧
    (do
      let barSub ← idOp false (kindState "string") (.str "myId")
      let outer ← propOp true (kindState "object") "foo" (.fluent barSub)
      valueOfE outer true) =
    .ok [("$schema", .str "http://json-schema.org/draft-07/schema#"),
         ("type", .str "object"),
         ("properties", .obj
           [("foo", .obj [("type", .str "string"), ("$id", .str "myId")])])] ∧
    (do
      let outer ← definitionOp true (kindState "object") "entity" (kindState "string")
      valueOfE outer true) =
    .ok [("$schema", .str "http://json-schema.org/draft-07/schema#"),
         ("definitions", .obj
           [("entity", .obj [("type", .str "string"), ("$id", .str "#definitions/entity")])]),
         ("type", .str "object")] ∧
    (do
      let barSub ← idOp false (kindState "string") (.str "myId")
      let inner1 ← propOp false (kindState "object") "bar" (.fluent barSub)
      let outer ← propOp true (kindState "object") "foo" (.fluent inner1)
      valueOfE outer true) =
    .ok [("$schema", .str "http://json-schema.org/draft-07/schema#"),
         ("type", .str "object"),
         ("properties", .obj
           [("foo", .obj
             [("type", .str "object"),
              ("properties", .obj
                [("bar", .obj
                  [("type", .str "string"),
                   ("$id", .str "#properties/foo/myId")])]),
              ("$id", .str "#properties/foo")])])] := ⟨rfl, rfl, rfl, rfl⟩

/-- Claim C4 counterexample: with a most recently declared property x that
already carries the keyword description with value old, setting description
to new through the shared setAttribute mechanism leaves old in the output:
the object literal of the source spreads the existing attributes over the new
keyword, so the existing value wins the conflict, not the newly set one. -/
theorem claim_C4_counterexample :
    (do
      let s2 ← propOp false (kindState "object") "x" (.plain [("description", .str "old")])
      let s3 ← setAttributeOp false s2 "description" (.str "new")
      valueOfE s3 true) =
    .ok [("$schema", .str "http://json-schema.org/draft-07/schema#"),
         ("type", .str "object"),
         ("properties", .obj [("x", .obj [("description", .str "old")])])] ∧
    ("old" : String) ≠ "new" := ⟨rfl, by decide⟩

theorem isUniq_false_cons (x : JValue) (t : List JValue) (h : isUniq t = false) :
    isUniq (x :: t) = false := by
  simp [isUniq, h]

theorem isUniq_false_of_any (x : JValue) (t : List JValue) (h : t.any (jsEqPrim x) = true) :
    isUniq (x :: t) = false := by
  simp [isUniq, h]

theorem jsEqPrim_str_self (a : String) : jsEqPrim (.str a) (.str a) = true := by
  simp [jsEqPrim]

theorem isUniq_append_mem_mem (l1 l2 : List JValue) (v : JValue)
    (h1 : v ∈ l1) (h2 : v ∈ l2) (hv : jsEqPrim v v = true) :
    isUniq (l1 ++ l2) = false := by
  induction l1 with
  | nil => exact absurd h1 (List.not_mem_nil v)
  | cons x t ih =>
      rcases List.mem_cons.mp h1 with hx | ht
      · subst hx
        refine isUniq_false_of_any v (t ++ l2) ?_
        exact List.any_eq_true.mpr ⟨v, List.mem_append_right t h2, hv⟩
      · exact isUniq_false_cons x (t ++ l2) (ih ht)

theorem isUniq_append_pair (l : List JValue) (v : JValue) (hv : jsEqPrim v v = true) :
    isUniq (l ++ [v, v]) = false := by
  induction l with
  | nil => simp [isUniq, hv]
  | cons x t ih => exact isUniq_false_cons x _ ih

theorem requiredReduce_mono (nm v : JValue) (items : List JValue)
    (acc : List JValue × List JValue) (h : v ∈ acc.1) :
    v ∈ (items.foldl
      (fun (acc : List JValue × List JValue) item =>
        match item with
        | .reqSym => (acc.1 ++ [nm], acc.2)
        | _ => (acc.1, acc.2 ++ [item])) acc).1 := by
  induction items generalizing acc with
  | nil => exact h
  | cons x t ih =>
      rw [List.foldl_cons]
      refine ih _ ?_
      cases x <;> first | exact List.mem_append_left _ h | exact h

theorem requiredReduce_foldl_mem (nm : JValue) (items : List JValue)
    (h : JValue.reqSym ∈ items) (acc : List JValue × List JValue) :
    nm ∈ (items.foldl
      (fun (acc : List JValue × List JValue) item =>
        match item with
        | .reqSym => (acc.1 ++ [nm], acc.2)
        | _ => (acc.1, acc.2 ++ [item])) acc).1 := by
  induction items generalizing acc with
  | nil => exact absurd h (List.not_mem_nil _)
  | cons x t ih =>
      rw [List.foldl_cons]
      rcases List.mem_cons.mp h with hx | ht
      · subst hx
        exact requiredReduce_mono nm nm t _ (List.mem_append_right _ (by simp))
      · exact ih ht _

theorem requiredReduce_mem (nm : JValue) (items : List JValue)
    (h : JValue.reqSym ∈ items) : nm ∈ (requiredReduce nm items).1 :=
  requiredReduce_foldl_mem nm items h ([], [])

theorem jget_patchIds_other (g : Bool) (pid : JValue) (sc : JObj) (k : String)
    (hk : k ≠ "properties") :
    jget (patchIdsWithParentId g pid sc) k = jget sc k := by
  simp only [patchIdsWithParentId]
  by_cases hlen :
      (asFields (if truthy (jget sc "properties") = true
        then jget sc "properties" else JValue.obj [])).length = 0
  · rw [if_pos hlen]
  · rw [if_neg hlen]
    exact jget_jset_other sc "properties" k _ (fun hc => hk hc.symm)

theorem appendRequired_dup_error (s attrs : JObj) (n : String) (rl l : List JValue)
    (hname : jget attrs "name" = .str n) (hreq : jget attrs "required" = .arr rl)
    (hsym : JValue.reqSym ∈ rl) (hl : jget s "required" = .arr l)
    (hmem : JValue.str n ∈ l) :
    appendRequired s attrs =
      .error "required has repeated keys, check your calls to required" := by
  simp only [appendRequired]
  rw [hname, hreq, hl]
  have hred : asArr (if truthy (JValue.arr rl) then JValue.arr rl else .arr []) = rl := by
    simp [truthy, asArr]
  rw [hred]
  have hfalse : isUniq (asArr (JValue.arr l) ++ (requiredReduce (.str n) rl).1) = false := by
    refine isUniq_append_mem_mem _ _ (JValue.str n) ?_ ?_ (jsEqPrim_str_self n)
    · simpa [asArr] using hmem
    · exact requiredReduce_mem (.str n) rl hsym
  simp [hfalse]

/-- Claim C3: introducing a duplicate required name fails with the
FluentSchemaError at the point the duplicate would be introduced.  First
conjunct: the bulk form with a repeated name fails on any state whose
required field is an array.  Second conjunct: the chain object, prop a,
required, prop a, required fails at the second required call.  Third
conjunct: a prop call whose fluent sub-schema propagates a required sentinel
resolving to a name already present in the required list fails inside
appendRequired. -/
theorem claim_C3_duplicate_required (a : String) :
    (∀ s l, jget s "required" = JValue.arr l →
      requiredOp s (some [.str a, .str a]) =
        .error "required has repeated keys, check your calls to required") ∧
    ((do
        let s2 ← propOp false (kindState "object") "a" (.plain [])
        let s3 ← requiredOp s2 none
        let s4 ← propOp false s3 "a" (.plain [])
        requiredOp s4 none) =
      .error "required has repeated keys, check your calls to required") ∧
    (∀ g s l sub rl, jget s "required" = JValue.arr l → JValue.str a ∈ l →
      jget (assembleValue sub) "required" = JValue.arr rl → JValue.reqSym ∈ rl →
      propOp g s a (.fluent sub) =
        .error "required has repeated keys, check your calls to required") := by
  refine ⟨?_, rfl, ?_⟩
  · intro s l hl
    have hfalse : isUniq (l ++ [JValue.str a, JValue.str a]) = false :=
      isUniq_append_pair l (.str a) (jsEqPrim_str_self a)
    simp [requiredOp, hl, asArr, hfalse]
  · intro g s l sub rl hl hmem hreq hsym
    have herr : ∀ pid, appendRequired s
        (jset (patchIdsWithParentId g pid (assembleValue sub)) "name" (.str a)) =
        .error "required has repeated keys, check your calls to required" := by
      intro pid
      refine appendRequired_dup_error s _ a rl l (jget_jset_same _ _ _) ?_ hsym hl hmem
      rw [jget_jset_other _ _ _ _ (by decide), jget_patchIds_other _ _ _ _ (by decide)]
      exact hreq
    unfold propOp
    simp only [propArgIsFluent, propArgDef, propArgValue, Bool.false_eq_true,
      if_false, if_true]
    rw [herr]
    rfl

/-- Claim C3, witnessed: the bulk duplicate and the sentinel-propagation
duplicate on concrete object and string builder states. -/
theorem claim_C3_duplicate_required_witness :
    requiredOp (kindState "object") (some [.str "a", .str "a"]) =
      .error "required has repeated keys, check your calls to required" ∧
    propOp false
      (jset (kindState "object") "required" (.arr [.str "a"])) "a"
      (.fluent (jset (kindState "string") "required" (.arr [.reqSym]))) =
      .error "required has repeated keys, check your calls to required" :=
  ⟨(claim_C3_duplicate_required "a").1 (kindState "object") [] rfl,
   (claim_C3_duplicate_required "a").2.2 false
     (jset (kindState "object") "required" (.arr [.str "a"])) [.str "a"]
     (jset (kindState "string") "required" (.arr [.reqSym])) [.reqSym]
     rfl (by simp) rfl (by simp)⟩

/-- Claim C5: a successful valueOf on a state with unique keys assembles the
output in exactly this key order: dollar-schema if present, then flattened
definitions (omitted if empty), then all other root attributes except the
conditional keywords, then flattened properties (omitted if empty), then
required (omitted if empty), then if, then, else (each omitted if absent);
and flattening maps each entry name to the object of its remaining fields,
a later entry overwriting the value of an earlier one with the same name. -/
theorem claim_C5_valueOf_key_order :
    (∀ s b o, NodupKeys s → valueOfE s b = .ok o →
      o = (if truthy (jget s "$schema") then [("$schema", jget s "$schema")] else [])
        ++ (if nonemptyCount (jget s "definitions")
            then [("definitions", .obj (flatJ (asArr (jget s "definitions"))))] else [])
        ++ restSection s
        ++ (if nonemptyCount (jget s "properties")
            then [("properties", .obj (flatJ (asArr (jget s "properties"))))] else [])
        ++ (if truthy (jget s "required") && 0 < (asArr (jget s "required")).length
            then [("required", jget s "required")] else [])
        ++ (if truthy (jget s "if") then [("if", jget s "if")] else [])
        ++ (if truthy (jget s "then") then [("then", jget s "then")] else [])
        ++ (if truthy (jget s "else") then [("else", jget s "else")] else [])) ∧
    (∀ (l : List JValue) (e : JValue) (nm : String),
      jget (asFields e) "name" = JValue.str nm →
      jget (flatJ (l ++ [e])) nm = .obj (jomit (asFields e) ["name"])) := by
  constructor
  · intro s b o h hok
    have ho : o = assembleValue s := by
      unfold valueOfE at hok
      split at hok
      · exact Except.noConfusion hok
      · exact (Except.ok.inj hok).symm
    subst ho
    exact assembleValue_eq_append s h
  · intro l e nm h
    rw [flatJ_append_single l e nm h, jget_jset_same]

/-- Claim C5, witnessed on a concrete object builder state and a concrete
flatten step. -/
theorem claim_C5_valueOf_key_order_witness :
    ([("$schema", JValue.str "http://json-schema.org/draft-07/schema#"),
      ("type", JValue.str "object")] : JObj) =
      (if truthy (jget (kindState "object") "$schema")
       then [("$schema", jget (kindState "object") "$schema")] else [])
      ++ (if nonemptyCount (jget (kindState "object") "definitions")
          then [("definitions",
                 JValue.obj (flatJ (asArr (jget (kindState "object") "definitions"))))] else [])
      ++ restSection (kindState "object")
      ++ (if nonemptyCount (jget (kindState "object") "properties")
          then [("properties",
                 JValue.obj (flatJ (asArr (jget (kindState "object") "properties"))))] else [])
      ++ (if truthy (jget (kindState "object") "required") &&
            0 < (asArr (jget (kindState "object") "required")).length
          then [("required", jget (kindState "object") "required")] else [])
      ++ (if truthy (jget (kindState "object") "if")
          then [("if", jget (kindState "object") "if")] else [])
      ++ (if truthy (jget (kindState "object") "then")
          then [("then", jget (kindState "object") "then")] else [])
      ++ (if truthy (jget (kindState "object") "else")
          then [("else", jget (kindState "object") "else")] else []) ∧
    jget (flatJ ([JValue.obj [("name", .str "x"), ("type", .str "number")],
                  JValue.obj [("name", .str "x"), ("type", .str "string")]])) "x" =
      .obj (jomit (asFields (JValue.obj [("name", .str "x"), ("type", .str "string")])) ["name"]) :=
  ⟨claim_C5_valueOf_key_order.1 (kindState "object") true
     [("$schema", JValue.str "http://json-schema.org/draft-07/schema#"),
      ("type", JValue.str "object")] (by decide) rfl,
   claim_C5_valueOf_key_order.2 [JValue.obj [("name", .str "x"), ("type", .str "number")]]
     (JValue.obj [("name", .str "x"), ("type", .str "string")]) "x" rfl⟩

theorem store_get_set_append_ne (h : Store) (x y : Builder) (r i : Nat)
    (hi : i < h.length) (hne : i ≠ r) :
    ((h.set r x) ++ [y]).get? i = h.get? i := by
  rw [List.get?_append (by simpa using hi)]
  exact List.get?_set_ne x h (Ne.symm hne)

theorem store_get_set_append_self (h : Store) (x y : Builder) (r : Nat)
    (hr : r < h.length) :
    ((h.set r x) ++ [y]).get? r = some x := by
  rw [List.get?_append (by simpa using hr), List.get?_set_eq, List.get?_eq_get hr]
  rfl

theorem store_getD_set_append_self (h : Store) (x y : Builder) (r : Nat)
    (hr : r < h.length) :
    ((h.set r x) ++ [y]).getD r (mkBuilder []) = x := by
  unfold List.getD
  rw [store_get_set_append_self h x y r hr]
  rfl

theorem calleeAfter_baseSchema (g : Bool) (b : Builder) (c : FluentCall) :
    (calleeAfter g b c).baseSchema = b.baseSchema := by
  cases c <;> rfl

theorem calleeAfter_eq_self (g : Bool) (b : Builder) (c : FluentCall)
    (hne : ∀ n sub, c ≠ .propCall n (.fluent sub)) :
    calleeAfter g b c = b := by
  cases c with
  | propCall n a =>
      cases a with
      | fluent sub => exact absurd rfl (hne n sub)
      | plain o => rfl
  | attr k v => rfl
  | attrObject k v => rfl
  | rawFrag f => rfl
  | requiredCall p => rfl
  | defCall n sub => rfl
  | idBase i => rfl
  | idObject i => rfl

/-- The schema component of a successful appendRequired: the required list
of the schema extended by the resolved sentinel names. -/
theorem appendRequired_ok_fst (s attrs : JObj) (n : String) (rv : JValue)
    (sa : JObj × JObj)
    (hname : jget attrs "name" = .str n) (hreq : jget attrs "required" = rv)
    (hA : appendRequired s attrs = .ok sa) :
    sa.1 = jset s "required" (.arr (asArr (jget s "required") ++
      (requiredReduce (.str n) (asArr (if truthy rv then rv else .arr []))).1)) := by
  simp only [appendRequired] at hA
  rw [hname, hreq] at hA
  by_cases hU : ¬ isUniq (asArr (jget s "required") ++
      (requiredReduce (.str n) (asArr (if truthy rv then rv else .arr []))).1) = true
  · rw [if_pos hU] at hA
    exact Except.noConfusion hA
  · rw [if_neg hU] at hA
    exact (congrArg Prod.fst (Except.ok.inj hA)).symm

/-- A successful prop call on a fluent sub-schema rebinds the factory schema
binding to the callee state with the resolved sentinel names appended to its
required list: exactly the schemaPatched of appendRequired. -/
theorem propSchemaAfter_fluent (g : Bool) (s : JObj) (n : String) (sub : JObj)
    (hok : ∃ t, propOp g s n (.fluent sub) = .ok t) :
    propSchemaAfter g s n (.fluent sub) =
      jset s "required" (.arr (asArr (jget s "required") ++
        (requiredReduce (.str n)
          (asArr (if truthy (jget (assembleValue sub) "required")
                  then jget (assembleValue sub) "required"
                  else .arr []))).1)) := by
  obtain ⟨t, ht⟩ := hok
  unfold propOp at ht
  simp only [propArgIsFluent, propArgDef, propArgValue, Bool.false_eq_true,
    if_false, if_true] at ht
  unfold propSchemaAfter
  simp only [propArgIsFluent, propArgDef, propArgValue, Bool.false_eq_true,
    if_false, if_true]
  cases hA : appendRequired s
      (jset (patchIdsWithParentId g
        (if truthy (jget (assembleValue sub) "$id") = true
         then jget (assembleValue sub) "$id"
         else if g = true then JValue.str ("#" ++ "properties" ++ "/" ++ n)
         else JValue.undef) (assembleValue sub)) "name" (.str n)) with
  | error e =>
      rw [hA] at ht
      exact Except.noConfusion ht
  | ok sa =>
      show sa.1 = _
      exact appendRequired_ok_fst s _ n (jget (assembleValue sub) "required") sa
        (jget_jset_same _ _ _)
        (by rw [jget_jset_other _ _ _ _ (by decide),
              jget_patchIds_other _ _ _ _ (by decide)])
        hA

/-- Claim C1, counterexample: a prop call whose fluent sub-schema carries the
REQUIRED sentinel mutates the callee.  The source ends the fluent branch of
prop with the assignment of schemaPatched to the closed-over schema binding,
so on a store holding one object builder, prop a (string().required()) leaves
the callee cell with its factory binding patched to required = [a]; a
subsequent prop b call on the same builder then serializes with
required = [a], while the same call on the untouched builder leaves required
out entirely. -/
theorem claim_C1_counterexample :
    ∃ h2 r2,
      applyCallRef false [mkBuilder (kindState "object")] 0
          (.propCall "a" (.fluent (jset (kindState "string") "required" (.arr [.reqSym]))))
        = .ok (h2, r2) ∧
      h2.getD 0 (mkBuilder []) =
        ⟨kindState "object", jset (kindState "object") "required" (.arr [.str "a"])⟩ ∧
      (mkBuilder (kindState "object")).objSchema = kindState "object" ∧
      jget (kindState "object") "required" = .arr [] ∧
      (∃ h3 r3 o, applyCallRef false h2 0 (.propCall "b" (.plain [])) = .ok (h3, r3) ∧
        valueOfE (h3.getD r3 (mkBuilder [])).baseSchema true = .ok o ∧
        jget o "required" = .arr [.str "a"]) ∧
      (∃ h4 r4 o, applyCallRef false [mkBuilder (kindState "object")] 0
            (.propCall "b" (.plain [])) = .ok (h4, r4) ∧
        valueOfE (h4.getD r4 (mkBuilder [])).baseSchema true = .ok o ∧
        jget o "required" = .undef) :=
  ⟨_, _, rfl, rfl, rfl, rfl, ⟨_, _, _, rfl, rfl, rfl⟩, ⟨_, _, _, rfl, rfl, rfl⟩⟩

/-- Claim C1 amended: a successful fluent call allocates the result at a
fresh address and leaves every other cell untouched; the binding the
BaseSchema methods captured at construction is never reassigned, so the
serialization of the callee is unchanged for both isRoot modes; every call
other than prop with a fluent argument leaves the callee cell entirely
unchanged; and prop with a fluent argument reassigns the callee factory
binding to the callee state with the resolved sentinel names of the
sub-schema appended to its required list, a change later calls on the same
builder observe. -/
theorem claim_C1_amended (g : Bool) (h : Store) (r : Nat) (c : FluentCall)
    (h2 : Store) (r2 : Nat) (hr : r < h.length)
    (hok : applyCallRef g h r c = .ok (h2, r2)) :
    r2 = h.length ∧ r2 ≠ r ∧
    (∀ i, i < h.length → i ≠ r → h2.get? i = h.get? i) ∧
    (h2.getD r (mkBuilder [])).baseSchema = (h.getD r (mkBuilder [])).baseSchema ∧
    (∀ b, valueOfE (h2.getD r (mkBuilder [])).baseSchema b =
          valueOfE (h.getD r (mkBuilder [])).baseSchema b) ∧
    ((∀ n sub, c ≠ .propCall n (.fluent sub)) →
      h2.getD r (mkBuilder []) = h.getD r (mkBuilder [])) ∧
    (∀ n sub, c = .propCall n (.fluent sub) →
      (h2.getD r (mkBuilder [])).objSchema =
        jset (h.getD r (mkBuilder [])).objSchema "required"
          (.arr (asArr (jget (h.getD r (mkBuilder [])).objSchema "required") ++
            (requiredReduce (.str n)
              (asArr (if truthy (jget (assembleValue sub) "required")
                      then jget (assembleValue sub) "required"
                      else .arr []))).1))) := by
  simp only [applyCallRef] at hok
  cases hcall : applyCall g (readState (h.getD r (mkBuilder [])) c) c with
  | error e => rw [hcall] at hok; exact Except.noConfusion hok
  | ok s =>
      rw [hcall] at hok
      have hpair := Except.ok.inj hok
      have hh2 : h2 =
          (h.set r (calleeAfter g (h.getD r (mkBuilder [])) c)) ++ [mkBuilder s] :=
        (congrArg Prod.fst hpair).symm
      have hr2 : r2 = h.length := (congrArg Prod.snd hpair).symm
      subst hh2
      subst hr2
      have hAt : ((h.set r (calleeAfter g (h.getD r (mkBuilder [])) c)) ++
          [mkBuilder s]).getD r (mkBuilder []) =
          calleeAfter g (h.getD r (mkBuilder [])) c :=
        store_getD_set_append_self h _ _ r hr
      refine ⟨rfl, Nat.ne_of_gt hr, ?_, ?_, ?_, ?_, ?_⟩
      · intro i hi hir
        exact store_get_set_append_ne h _ _ r i hi hir
      · rw [hAt, calleeAfter_baseSchema]
      · intro b
        rw [hAt, calleeAfter_baseSchema]
      · intro hne
        rw [hAt, calleeAfter_eq_self g _ c hne]
      · intro n sub hc
        subst hc
        rw [hAt]
        simp only [calleeAfter]
        refine propSchemaAfter_fluent g _ n sub ⟨s, ?_⟩
        simpa only [applyCall, readState] using hcall

/-- Claim C1 amended, witnessed by a title call on a store holding one root
builder. -/
theorem claim_C1_amended_witness :
    (0 : Nat) < ([mkBuilder initialStateS] : Store).length ∧
    ((1 : Nat) = ([mkBuilder initialStateS] : Store).length ∧ (1 : Nat) ≠ 0 ∧
     (∀ i, i < ([mkBuilder initialStateS] : Store).length → i ≠ 0 →
       ([mkBuilder initialStateS,
         mkBuilder (jset initialStateS "title" (.str "x"))] : Store).get? i =
         ([mkBuilder initialStateS] : Store).get? i) ∧
     (([mkBuilder initialStateS,
        mkBuilder (jset initialStateS "title" (.str "x"))] : Store).getD 0
          (mkBuilder [])).baseSchema =
       (([mkBuilder initialStateS] : Store).getD 0 (mkBuilder [])).baseSchema ∧
     (∀ b, valueOfE (([mkBuilder initialStateS,
        mkBuilder (jset initialStateS "title" (.str "x"))] : Store).getD 0
          (mkBuilder [])).baseSchema b =
       valueOfE (([mkBuilder initialStateS] : Store).getD 0
          (mkBuilder [])).baseSchema b) ∧
     ((∀ n sub, FluentCall.attr "title" (.str "x") ≠ .propCall n (.fluent sub)) →
       ([mkBuilder initialStateS,
         mkBuilder (jset initialStateS "title" (.str "x"))] : Store).getD 0
           (mkBuilder []) =
         ([mkBuilder initialStateS] : Store).getD 0 (mkBuilder [])) ∧
     (∀ n sub, FluentCall.attr "title" (.str "x") = .propCall n (.fluent sub) →
       (([mkBuilder initialStateS,
          mkBuilder (jset initialStateS "title" (.str "x"))] : Store).getD 0
            (mkBuilder [])).objSchema =
         jset (([mkBuilder initialStateS] : Store).getD 0
             (mkBuilder [])).objSchema "required"
           (.arr (asArr (jget (([mkBuilder initialStateS] : Store).getD 0
               (mkBuilder [])).objSchema "required") ++
             (requiredReduce (.str n)
               (asArr (if truthy (jget (assembleValue sub) "required")
                       then jget (assembleValue sub) "required"
                       else .arr []))).1)))) :=
  ⟨by decide, claim_C1_amended false [mkBuilder initialStateS] 0
    (.attr "title" (.str "x"))
    [mkBuilder initialStateS, mkBuilder (jset initialStateS "title" (.str "x"))] 1
    (by decide) rfl⟩

/-- Claim C4 amended: a single-keyword setter or raw fragment targets the
root attribute map when the properties list is empty (first and second
conjuncts, where the new value does overwrite), and otherwise routes through
a prop call on the last entry of the list, merging the keyword or fragment
with the existing attributes of that entry (third and fourth conjuncts); in
that merge the entry existing value takes precedence on a key conflict and
the other attributes are preserved (fifth and sixth conjuncts); a raw
fragment likewise loses every key the entry already has (last conjunct). -/
theorem claim_C4_amended :
    (∀ g s k v, asArr (jget s "properties") = [] →
      setAttributeOp g s k v = .ok (jset s k v)) ∧
    (∀ g s raw, asArr (jget s "properties") = [] →
      setRawOp g s raw = .ok (jassign s raw)) ∧
    (∀ g s k v xs e, jget s "properties" = JValue.arr (xs ++ [e]) →
      setAttributeOp g s k v =
        propOp g s (asStr (jget (asFields e) "name"))
          (.plain (jassign [(k, v)] (jomit (asFields e) ["name"])))) ∧
    (∀ g s raw xs e, jget s "properties" = JValue.arr (xs ++ [e]) →
      setRawOp g s raw =
        propOp g s (asStr (jget (asFields e) "name"))
          (.plain (jassign raw (jomit (asFields e) ["name"])))) ∧
    (∀ (props : JObj) k v, NodupKeys props →
      jget (jassign [(k, v)] props) k =
        if hasKey props k then jget props k else v) ∧
    (∀ (props : JObj) k k2 v, NodupKeys props → k2 ≠ k →
      jget (jassign [(k, v)] props) k2 = jget props k2) ∧
    (∀ (raw props : JObj) k, NodupKeys props → hasKey props k = true →
      jget (jassign raw props) k = jget props k) := by
  refine ⟨?_, ?_, ?_, ?_, ?_, ?_, ?_⟩
  · intro g s k v hprops
    unfold setAttributeOp
    rw [hprops]
    rfl
  · intro g s raw hprops
    unfold setRawOp
    rw [hprops]
    rfl
  · intro g s k v xs e hprops
    unfold setAttributeOp
    rw [hprops]
    show (match lastJ (asArr (JValue.arr (xs ++ [e]))) with
      | some cp => propOp g s (asStr (jget (asFields cp) "name"))
          (.plain (jassign [(k, v)] (jomit (asFields cp) ["name"])))
      | none => .ok (jset s k v)) = _
    have hlast : lastJ (asArr (JValue.arr (xs ++ [e]))) = some e := by
      show (xs ++ [e]).getLast? = some e
      exact List.getLast?_concat xs
    rw [hlast]
  · intro g s raw xs e hprops
    unfold setRawOp
    rw [hprops]
    show (match lastJ (asArr (JValue.arr (xs ++ [e]))) with
      | some cp => propOp g s (asStr (jget (asFields cp) "name"))
          (.plain (jassign raw (jomit (asFields cp) ["name"])))
      | none => .ok (jassign s raw)) = _
    have hlast : lastJ (asArr (JValue.arr (xs ++ [e]))) = some e := by
      show (xs ++ [e]).getLast? = some e
      exact List.getLast?_concat xs
    rw [hlast]
  · intro props k v hnd
    rw [jget_jassign _ props k hnd]
    by_cases hk : hasKey props k
    · rw [if_pos hk, if_pos hk]
    · rw [if_neg hk, if_neg hk, jget_cons, if_pos rfl]
  · intro props k k2 v hnd hne
    rw [jget_jassign _ props k2 hnd]
    by_cases hk : hasKey props k2
    · rw [if_pos hk]
    · rw [if_neg hk, jget_cons, if_neg (fun hc => hne hc.symm), jget_nil,
        jget_eq_undef_of_not_hasKey props k2 (Bool.not_eq_true _ ▸ hk)]
  · intro raw props k hnd hk
    rw [jget_jassign raw props k hnd, if_pos hk]

/-- Claim C4 amended, witnessed on concrete states: the root path, the
last-entry routing and the merge precedence at a conflicting key. -/
theorem claim_C4_amended_witness :
    setAttributeOp false (kindState "string") "minLength" (.num 3) =
      .ok (jset (kindState "string") "minLength" (.num 3)) ∧
    setAttributeOp false
      (jset (kindState "object") "properties"
        (.arr [.obj [("name", .str "x"), ("description", .str "old")]]))
      "description" (.str "new") =
      propOp false
        (jset (kindState "object") "properties"
          (.arr [.obj [("name", .str "x"), ("description", .str "old")]]))
        (asStr (jget (asFields (JValue.obj [("name", .str "x"), ("description", .str "old")])) "name"))
        (.plain (jassign [("description", .str "new")]
          (jomit (asFields (JValue.obj [("name", .str "x"), ("description", .str "old")])) ["name"]))) ∧
    jget (jassign [("description", JValue.str "new")] [("description", JValue.str "old")])
        "description" =
      (if hasKey [("description", JValue.str "old")] "description"
       then jget [("description", JValue.str "old")] "description" else JValue.str "new") :=
  ⟨claim_C4_amended.1 false (kindState "string") "minLength" (.num 3) rfl,
   claim_C4_amended.2.2.1 false
     (jset (kindState "object") "properties"
       (.arr [.obj [("name", .str "x"), ("description", .str "old")]]))
     "description" (.str "new") []
     (.obj [("name", .str "x"), ("description", .str "old")]) rfl,
   claim_C4_amended.2.2.2.2.1 [("description", JValue.str "old")] "description"
     (JValue.str "new") (by decide)⟩

theorem mem_jomit (o : JObj) (ks : List String) (p : String × JValue)
    (hp : p ∈ jomit o ks) : p ∈ o ∧ p.1 ∉ ks := by
  have h1 := List.mem_filter.mp hp
  refine ⟨h1.1, ?_⟩
  intro hm
  have hb := h1.2
  have hb2 : ks.contains p.1 = true := List.elem_iff.mpr hm
  rw [hb2] at hb
  exact Bool.noConfusion hb

theorem hasKey_jomit_not_mem (o : JObj) (ks : List String) (k : String) (h : k ∉ ks) :
    hasKey (jomit o ks) k = hasKey o k := by
  induction o with
  | nil => rfl
  | cons p rest ih =>
      simp only [jomit, List.filter]
      cases hp : ks.contains p.1 with
      | true =>
          simp only [hp, Bool.not_true]
          have hne : p.1 ≠ k := by
            intro hk
            exact h (hk ▸ List.elem_iff.mp hp)
          show hasKey (jomit rest ks) k = hasKey (p :: rest) k
          rw [ih, hasKey_cons]
          simp [hne]
      | false =>
          simp only [hp, Bool.not_false]
          show hasKey (p :: jomit rest ks) k = hasKey (p :: rest) k
          rw [hasKey_cons, hasKey_cons, ih]

theorem jget_append_of_left_false (a b : JObj) (k : String) (h : hasKey a k = false) :
    jget (a ++ b) k = jget b k := by
  rw [jget_append]
  simp [h]

/-- Reading a key of the assembled valueOf output: the special keys come from
their sections, every other key comes unchanged from the state. -/
theorem jget_assembleValue (s : JObj) (h : NodupKeys s) (k : String) :
    jget (assembleValue s) k =
      if k = "$schema" then
        (if truthy (jget s "$schema") then jget s "$schema" else .undef)
      else if k = "definitions" then
        (if nonemptyCount (jget s "definitions")
         then .obj (flatJ (asArr (jget s "definitions"))) else .undef)
      else if k = "properties" then
        (if nonemptyCount (jget s "properties")
         then .obj (flatJ (asArr (jget s "properties"))) else .undef)
      else if k = "required" then
        (if truthy (jget s "required") && 0 < (asArr (jget s "required")).length
         then jget s "required" else .undef)
      else if k = "if" then (if truthy (jget s "if") then jget s "if" else .undef)
      else if k = "then" then (if truthy (jget s "then") then jget s "then" else .undef)
      else if k = "else" then (if truthy (jget s "else") then jget s "else" else .undef)
      else jget s k := by
  rw [assembleValue_eq_append s h]
  simp only [List.append_assoc]
  have hA : ∀ k2, k2 ≠ "$schema" →
      hasKey (if truthy (jget s "$schema") then [("$schema", jget s "$schema")] else [])
        k2 = false :=
    fun k2 hk2 => hasKey_ifsection _ _ _ _ (fun hc => hk2 hc.symm)
  have hB : ∀ k2, k2 ≠ "definitions" →
      hasKey (if nonemptyCount (jget s "definitions")
        then [("definitions", JValue.obj (flatJ (asArr (jget s "definitions"))))]
        else []) k2 = false :=
    fun k2 hk2 => hasKey_ifsection _ _ _ _ (fun hc => hk2 hc.symm)
  have hP : ∀ k2, k2 ≠ "properties" →
      hasKey (if nonemptyCount (jget s "properties")
        then [("properties", JValue.obj (flatJ (asArr (jget s "properties"))))]
        else []) k2 = false :=
    fun k2 hk2 => hasKey_ifsection _ _ _ _ (fun hc => hk2 hc.symm)
  have hQ : ∀ k2, k2 ≠ "required" →
      hasKey (if truthy (jget s "required") && 0 < (asArr (jget s "required")).length
        then [("required", jget s "required")] else []) k2 = false :=
    fun k2 hk2 => hasKey_ifsection _ _ _ _ (fun hc => hk2 hc.symm)
  have hI : ∀ k2, k2 ≠ "if" →
      hasKey (if truthy (jget s "if") then [("if", jget s "if")] else []) k2 = false :=
    fun k2 hk2 => hasKey_ifsection _ _ _ _ (fun hc => hk2 hc.symm)
  have hT : ∀ k2, k2 ≠ "then" →
      hasKey (if truthy (jget s "then") then [("then", jget s "then")] else []) k2 = false :=
    fun k2 hk2 => hasKey_ifsection _ _ _ _ (fun hc => hk2 hc.symm)
  have hE : ∀ k2, k2 ≠ "else" →
      hasKey (if truthy (jget s "else") then [("else", jget s "else")] else []) k2 = false :=
    fun k2 hk2 => hasKey_ifsection _ _ _ _ (fun hc => hk2 hc.symm)
  have hsec : ∀ (c : Bool) (k2 : String) (v : JValue) (tail : JObj),
      jget ((if c then [(k2, v)] else []) ++ tail) k2 =
        if c then v else jget tail k2 := by
    intro c k2 v tail
    cases c with
    | false => simp
    | true => simp [jget_cons]
  have hsecLast : ∀ (c : Bool) (k2 : String) (v : JValue),
      jget (if c then [(k2, v)] else []) k2 = if c then v else .undef := by
    intro c k2 v
    cases c with
    | false => rfl
    | true => simp [jget_cons]
  by_cases h1 : k = "$schema"
  · subst h1
    rw [if_pos rfl]
    rw [hsec]
    by_cases ht : truthy (jget s "$schema")
    · rw [if_pos ht, if_pos ht]
    · rw [if_neg ht, if_neg ht,
        jget_append_of_left_false _ _ _ (hB _ (by decide)),
        jget_append_of_left_false _ _ _ (hasKey_restSection s _ (by simp)),
        jget_append_of_left_false _ _ _ (hP _ (by decide)),
        jget_append_of_left_false _ _ _ (hQ _ (by decide)),
        jget_append_of_left_false _ _ _ (hI _ (by decide)),
        jget_append_of_left_false _ _ _ (hT _ (by decide)),
        jget_eq_undef_of_not_hasKey _ _ (hE _ (by decide))]
  · rw [if_neg h1, jget_append_of_left_false _ _ _ (hA _ h1)]
    by_cases h2 : k = "definitions"
    · subst h2
      rw [if_pos rfl, hsec]
      by_cases hc : nonemptyCount (jget s "definitions")
      · rw [if_pos hc, if_pos hc]
      · rw [if_neg hc, if_neg hc,
          jget_append_of_left_false _ _ _ (hasKey_restSection s _ (by simp)),
          jget_append_of_left_false _ _ _ (hP _ (by decide)),
          jget_append_of_left_false _ _ _ (hQ _ (by decide)),
          jget_append_of_left_false _ _ _ (hI _ (by decide)),
          jget_append_of_left_false _ _ _ (hT _ (by decide)),
          jget_eq_undef_of_not_hasKey _ _ (hE _ (by decide))]
    · rw [if_neg h2, jget_append_of_left_false _ _ _ (hB _ h2)]
      by_cases h3 : k = "properties"
      · subst h3
        rw [if_pos rfl,
          jget_append_of_left_false _ _ _ (hasKey_restSection s _ (by simp)), hsec]
        by_cases hc : nonemptyCount (jget s "properties")
        · rw [if_pos hc, if_pos hc]
        · rw [if_neg hc, if_neg hc,
            jget_append_of_left_false _ _ _ (hQ _ (by decide)),
            jget_append_of_left_false _ _ _ (hI _ (by decide)),
            jget_append_of_left_false _ _ _ (hT _ (by decide)),
            jget_eq_undef_of_not_hasKey _ _ (hE _ (by decide))]
      · rw [if_neg h3]
        by_cases h4 : k = "required"
        · subst h4
          rw [if_pos rfl,
            jget_append_of_left_false _ _ _ (hasKey_restSection s _ (by simp)),
            jget_append_of_left_false _ _ _ (hP _ (by decide)), hsec]
          by_cases hc : truthy (jget s "required") && 0 < (asArr (jget s "required")).length
          · rw [if_pos hc, if_pos hc]
          · rw [if_neg hc, if_neg hc,
              jget_append_of_left_false _ _ _ (hI _ (by decide)),
              jget_append_of_left_false _ _ _ (hT _ (by decide)),
              jget_eq_undef_of_not_hasKey _ _ (hE _ (by decide))]
        · rw [if_neg h4]
          by_cases h5 : k = "if"
          · subst h5
            rw [if_pos rfl,
              jget_append_of_left_false _ _ _ (hasKey_restSection s _ (by simp)),
              jget_append_of_left_false _ _ _ (hP _ (by decide)),
              jget_append_of_left_false _ _ _ (hQ _ (by decide)), hsec]
            by_cases hc : truthy (jget s "if")
            · rw [if_pos hc, if_pos hc]
            · rw [if_neg hc, if_neg hc,
                jget_append_of_left_false _ _ _ (hT _ (by decide)),
                jget_eq_undef_of_not_hasKey _ _ (hE _ (by decide))]
          · rw [if_neg h5]
            by_cases h6 : k = "then"
            · subst h6
              rw [if_pos rfl,
                jget_append_of_left_false _ _ _ (hasKey_restSection s _ (by simp)),
                jget_append_of_left_false _ _ _ (hP _ (by decide)),
                jget_append_of_left_false _ _ _ (hQ _ (by decide)),
                jget_append_of_left_false _ _ _ (hI _ (by decide)), hsec]
              by_cases hc : truthy (jget s "then")
              · rw [if_pos hc, if_pos hc]
              · rw [if_neg hc, if_neg hc,
                  jget_eq_undef_of_not_hasKey _ _ (hE _ (by decide))]
            · rw [if_neg h6]
              by_cases h7 : k = "else"
              · subst h7
                rw [if_pos rfl,
                  jget_append_of_left_false _ _ _ (hasKey_restSection s _ (by simp)),
                  jget_append_of_left_false _ _ _ (hP _ (by decide)),
                  jget_append_of_left_false _ _ _ (hQ _ (by decide)),
                  jget_append_of_left_false _ _ _ (hI _ (by decide)),
                  jget_append_of_left_false _ _ _ (hT _ (by decide)),
                  hsecLast]
              · rw [if_neg h7]
                by_cases hk : hasKey (restSection s) k
                · rw [jget_append, if_pos hk]
                  unfold restSection
                  rw [jget_jomit_not_mem _ _ _ (by
                      simp only [List.mem_cons, List.mem_singleton]
                      tauto),
                    jget_jomit_not_mem _ _ _ (by
                      simp only [List.mem_cons, List.mem_singleton]
                      tauto)]
                · rw [jget_append_of_left_false _ _ _ (by
                      rw [Bool.eq_false_iff]
                      exact hk),
                    jget_append_of_left_false _ _ _ (hP _ h3),
                    jget_append_of_left_false _ _ _ (hQ _ h4),
                    jget_append_of_left_false _ _ _ (hI _ h5),
                    jget_append_of_left_false _ _ _ (hT _ h6)]
                  have hE2 : jget (if truthy (jget s "else")
                      then [("else", jget s "else")] else []) k = .undef := by
                    split
                    · rw [jget_cons, if_neg (fun hc => h7 hc.symm), jget_nil]
                    · rfl
                  rw [hE2]
                  have hsk : hasKey s k = false := by
                    rw [← hasKey_jomit_not_mem s
                        ["properties", "definitions", "required", "$schema"] k (by
                          simp only [List.mem_cons, List.mem_singleton]
                          tauto),
                      ← hasKey_jomit_not_mem _ ["if", "then", "else"] k (by
                          simp only [List.mem_cons, List.mem_singleton]
                          tauto)]
                    rw [Bool.eq_false_iff]
                    exact hk
                  rw [jget_eq_undef_of_not_hasKey s k hsk]

theorem filter_not_name (f : JObj) (hfn : hasKey f "name" = false) :
    jomit f ["name"] = f := by
  simp only [jomit]
  refine List.filter_eq_self.mpr ?_
  intro q hq
  simp only [hasKey, List.any_eq_false] at hfn
  have := hfn q hq
  simp only [decide_eq_false_iff_not] at this
  simp [List.contains_cons, this]

theorem flatJ_map_entries (m : JObj) (hm : FlatMapOK m) (acc : JObj)
    (hfresh : ∀ p ∈ m, hasKey acc p.1 = false) :
    List.foldl
      (fun memo e =>
        match jget (asFields e) "name" with
        | .str n => jset memo n (.obj (jomit (asFields e) ["name"]))
        | _ => memo)
      acc
      (m.map (fun p => JValue.obj (jassign [("name", JValue.str p.1)] (asFields p.2)))) =
    acc ++ m := by
  induction m generalizing acc with
  | nil => simp
  | cons p t ih =>
      obtain ⟨f, hf, hfn, hfnd⟩ := hm.2 p (List.mem_cons_self p t)
      have hffresh : ∀ q ∈ f, hasKey [("name", JValue.str p.1)] q.1 = false := by
        intro q hq
        simp only [hasKey, List.any_eq_false] at hfn ⊢
        have hthis := hfn q hq
        simp only [decide_eq_true_eq] at hthis ⊢
        intro r hr
        simp only [List.mem_singleton] at hr
        subst hr
        intro hc
        exact hthis hc.symm
      have hjas : jassign [("name", JValue.str p.1)] (asFields p.2) =
          ("name", JValue.str p.1) :: f := by
        rw [hf]
        show jassign [("name", JValue.str p.1)] f = _
        rw [jassign_eq_append _ f hffresh hfnd]
        rfl
      rw [List.map_cons, List.foldl_cons, hjas]
      have hget : jget (asFields (JValue.obj (("name", JValue.str p.1) :: f))) "name" =
          JValue.str p.1 := by
        show jget (("name", JValue.str p.1) :: f) "name" = _
        rw [jget_cons, if_pos rfl]
      have homit : jomit (asFields (JValue.obj (("name", JValue.str p.1) :: f))) ["name"] = f := by
        show jomit (("name", JValue.str p.1) :: f) ["name"] = f
        simp only [jomit, List.filter]
        rw [show (["name"] : List String).contains "name" = true from rfl]
        exact filter_not_name f hfn
      simp only [hget, homit]
      have hnd1 : p.1 ∉ keys t ∧ (keys t).Nodup :=
        List.nodup_cons.mp (by simpa [keys, NodupKeys] using hm.1)
      have hstep : jset acc p.1 (JValue.obj f) = acc ++ [p] := by
        rw [jset_of_not_hasKey acc p.1 _ (hfresh p (List.mem_cons_self p t))]
        have : (p.1, JValue.obj f) = p := by
          rw [← hf]
        rw [this]
      rw [hstep]
      have hm2 : FlatMapOK t :=
        ⟨hnd1.2, fun q hq => hm.2 q (List.mem_cons_of_mem p hq)⟩
      have hfresh2 : ∀ q ∈ t, hasKey (acc ++ [p]) q.1 = false := by
        intro q hq
        rw [hasKey_append, hfresh q (List.mem_cons_of_mem p hq)]
        simp only [Bool.false_or]
        rw [hasKey_cons, hasKey_nil]
        simp only [Bool.or_false, decide_eq_false_iff_not]
        intro hc
        exact hnd1.1 (hc ▸ (List.mem_map.mpr ⟨q, hq, rfl⟩))
      rw [ih hm2 (acc ++ [p]) hfresh2, List.append_assoc]
      rfl

theorem flatJ_toArray (m : JObj) (hm : FlatMapOK m) :
    flatJ ((toArrayJ (JValue.obj m)).getD []) = m := by
  show flatJ (m.map (fun p => JValue.obj (jassign [("name", JValue.str p.1)] (asFields p.2)))) = m
  unfold flatJ
  rw [flatJ_map_entries m hm [] (fun p _ => rfl)]
  rfl

theorem not_hasKey_singleton_of_ne (k2 : String) (v : JValue) (k : String) (h : k2 ≠ k) :
    hasKey [(k2, v)] k = false := by
  rw [hasKey_cons, hasKey_nil]
  simp [h]

theorem fresh_of_jomit_big4 (O : JObj) (p : String × JValue)
    (hp : p ∈ jomit O ["type", "definitions", "properties", "required"]) :
    p.1 ≠ "type" ∧ p.1 ≠ "definitions" ∧ p.1 ≠ "properties" ∧ p.1 ≠ "required" := by
  have hm := (mem_jomit O _ p hp).2
  simp only [List.mem_cons, List.mem_singleton, List.not_mem_nil, not_or] at hm
  exact ⟨hm.1, hm.2.1, hm.2.2.1, hm.2.2.2.1⟩

theorem rawSchemaE_eq_dispatch (O : JObj) : rawSchemaE (.obj O) = rawDispatch O := rfl

theorem rawDispatch_simple (O : JObj) (t : String)
    (ht : jget O "type" = JValue.str t)
    (hmem : t ∈ (["string", "integer", "number", "boolean", "array"] : List String))
    (hnd : NodupKeys O) :
    rawDispatch O = .ok (("type", JValue.str t) ::
      jomit O ["type", "definitions", "properties", "required"]) := by
  have hj : jassign [("type", JValue.str t)]
      (jomit O ["type", "definitions", "properties", "required"]) =
      ("type", JValue.str t) :: jomit O ["type", "definitions", "properties", "required"] := by
    rw [jassign_eq_append _ _
      (fun p hp => not_hasKey_singleton_of_ne _ _ _
        (fun hc => (fresh_of_jomit_big4 O p hp).1 hc.symm))
      (nodupKeys_jomit O _ hnd)]
    rfl
  simp only [List.mem_cons, List.mem_singleton, List.not_mem_nil, or_false] at hmem
  rcases hmem with h | h | h | h | h <;> subst h <;>
    · simp only [rawDispatch]
      rw [ht, hj]
      rfl

theorem rawDispatch_base (O : JObj) (ht : hasKey O "type" = false) :
    rawDispatch O = .ok (jomit O ["type", "definitions", "properties", "required"]) := by
  simp only [rawDispatch]
  rw [jget_eq_undef_of_not_hasKey O "type" ht]

theorem rawDispatch_object (O : JObj)
    (ht : jget O "type" = JValue.str "object") (hnd : NodupKeys O) :
    rawDispatch O = .ok ([("type", JValue.str "object"),
      ("definitions", .arr ((toArrayJ (jget O "definitions")).getD [])),
      ("properties", .arr ((toArrayJ (jget O "properties")).getD [])),
      ("required", if truthy (jget O "required") then jget O "required" else .arr [])]
      ++ jomit O ["type", "definitions", "properties", "required"]) := by
  have hj : jassign [("type", JValue.str "object"),
      ("definitions", .arr ((toArrayJ (jget O "definitions")).getD [])),
      ("properties", .arr ((toArrayJ (jget O "properties")).getD [])),
      ("required", if truthy (jget O "required") then jget O "required" else .arr [])]
      (jomit O ["type", "definitions", "properties", "required"]) =
      [("type", JValue.str "object"),
       ("definitions", .arr ((toArrayJ (jget O "definitions")).getD [])),
       ("properties", .arr ((toArrayJ (jget O "properties")).getD [])),
       ("required", if truthy (jget O "required") then jget O "required" else .arr [])]
      ++ jomit O ["type", "definitions", "properties", "required"] := by
    refine jassign_eq_append _ _ ?_ (nodupKeys_jomit O _ hnd)
    intro p hp
    obtain ⟨h1, h2, h3, h4⟩ := fresh_of_jomit_big4 O p hp
    rw [hasKey_cons, hasKey_cons, hasKey_cons, hasKey_cons, hasKey_nil]
    simp only [decide_eq_false (fun hc => h1 hc.symm : ¬ "type" = p.1),
      decide_eq_false (fun hc => h2 hc.symm : ¬ "definitions" = p.1),
      decide_eq_false (fun hc => h3 hc.symm : ¬ "properties" = p.1),
      decide_eq_false (fun hc => h4 hc.symm : ¬ "required" = p.1)]
    rfl
  simp only [rawDispatch]
  rw [ht, hj]
  rfl

theorem mem_keys_iff_hasKey (o : JObj) (k : String) : k ∈ keys o ↔ hasKey o k = true := by
  simp only [keys, hasKey, List.mem_map, List.any_eq_true, decide_eq_true_eq]

/-- The assembled output of a state agrees pointwise with a serialized
document when the state matches it field by field. -/
theorem assembled_deep_equal (s O : JObj) (hnds : NodupKeys s) (hser : SerializedOK O)
    (e1 : jget s "$schema" = jget O "$schema")
    (e2 : (if nonemptyCount (jget s "definitions")
           then JValue.obj (flatJ (asArr (jget s "definitions"))) else .undef) =
          jget O "definitions")
    (e3 : (if nonemptyCount (jget s "properties")
           then JValue.obj (flatJ (asArr (jget s "properties"))) else .undef) =
          jget O "properties")
    (e4 : (if truthy (jget s "required") && 0 < (asArr (jget s "required")).length
           then jget s "required" else .undef) = jget O "required")
    (e5 : jget s "if" = jget O "if")
    (e6 : jget s "then" = jget O "then")
    (e7 : jget s "else" = jget O "else")
    (e8 : ∀ k, k ∉ (["$schema", "definitions", "properties", "required",
                     "if", "then", "else"] : List String) → jget s k = jget O k) :
    DeepEqualTop (assembleValue s) O := by
  intro k
  rw [jget_assembleValue s hnds k]
  by_cases h1 : k = "$schema"
  · subst h1
    rw [if_pos rfl, e1]
    by_cases htr : truthy (jget O "$schema")
    · rw [if_pos htr]
    · rw [if_neg htr]
      have hnk : hasKey O "$schema" = false := by
        cases hc : hasKey O "$schema"
        · rfl
        · exact absurd (hser.2.1 hc) htr
      rw [jget_eq_undef_of_not_hasKey O _ hnk]
  · rw [if_neg h1]
    by_cases h2 : k = "definitions"
    · subst h2
      rw [if_pos rfl]
      exact e2
    · rw [if_neg h2]
      by_cases h3 : k = "properties"
      · subst h3
        rw [if_pos rfl]
        exact e3
      · rw [if_neg h3]
        by_cases h4 : k = "required"
        · subst h4
          rw [if_pos rfl]
          exact e4
        · rw [if_neg h4]
          by_cases h5 : k = "if"
          · subst h5
            rw [if_pos rfl, e5]
            by_cases htr : truthy (jget O "if")
            · rw [if_pos htr]
            · rw [if_neg htr]
              have hnk : hasKey O "if" = false := by
                cases hc : hasKey O "if"
                · rfl
                · exact absurd (hser.2.2.1 hc) htr
              rw [jget_eq_undef_of_not_hasKey O _ hnk]
          · rw [if_neg h5]
            by_cases h6 : k = "then"
            · subst h6
              rw [if_pos rfl, e6]
              by_cases htr : truthy (jget O "then")
              · rw [if_pos htr]
              · rw [if_neg htr]
                have hnk : hasKey O "then" = false := by
                  cases hc : hasKey O "then"
                  · rfl
                  · exact absurd (hser.2.2.2.1 hc) htr
                rw [jget_eq_undef_of_not_hasKey O _ hnk]
            · rw [if_neg h6]
              by_cases h7 : k = "else"
              · subst h7
                rw [if_pos rfl, e7]
                by_cases htr : truthy (jget O "else")
                · rw [if_pos htr]
                · rw [if_neg htr]
                  have hnk : hasKey O "else" = false := by
                    cases hc : hasKey O "else"
                    · rfl
                    · exact absurd (hser.2.2.2.2 hc) htr
                  rw [jget_eq_undef_of_not_hasKey O _ hnk]
              · rw [if_neg h7]
                refine e8 k ?_
                simp only [List.mem_cons, List.mem_singleton, List.not_mem_nil, or_false]
                tauto

theorem roundTrip_simple (O : JObj) (hndO : NodupKeys O)
    (hsch : hasKey O "$schema" = true → truthy (jget O "$schema") = true)
    (hifO : hasKey O "if" = true → truthy (jget O "if") = true)
    (hthenO : hasKey O "then" = true → truthy (jget O "then") = true)
    (helseO : hasKey O "else" = true → truthy (jget O "else") = true)
    (hk : SimpleKindOK O) :
    ∃ s o, rawSchemaE (.obj O) = .ok s ∧ valueOfE s true = .ok o ∧ DeepEqualTop o O := by
  obtain ⟨⟨t, ht, htm⟩, hpO, hdO, hrO⟩ := hk
  set P := jomit O ["type", "definitions", "properties", "required"] with hPdef
  have hndP : NodupKeys P := nodupKeys_jomit O _ hndO
  have hnds : NodupKeys (("type", JValue.str t) :: P) := by
    refine List.nodup_cons.mpr ⟨?_, hndP⟩
    intro hc
    have hck := (mem_keys_iff_hasKey P "type").mp hc
    rw [hPdef, hasKey_jomit_mem O _ "type" (by simp)] at hck
    exact Bool.noConfusion hck
  have hS : ∀ k, k ≠ "type" → jget (("type", JValue.str t) :: P) k = jget P k := by
    intro k hk2
    rw [jget_cons, if_neg (fun hc => hk2 hc.symm)]
  have hPnone : ∀ k, k ∈ (["type", "definitions", "properties", "required"] : List String) →
      jget P k = .undef := by
    intro k hk2
    exact jget_eq_undef_of_not_hasKey P _ (hPdef ▸ hasKey_jomit_mem O _ k hk2)
  have hPO : ∀ k, k ∉ (["type", "definitions", "properties", "required"] : List String) →
      jget P k = jget O k := by
    intro k hk2
    exact hPdef ▸ jget_jomit_not_mem O _ k hk2
  have hreqS : jget (("type", JValue.str t) :: P) "required" = .undef := by
    rw [hS _ (by decide)]
    exact hPnone _ (by simp)
  refine ⟨("type", JValue.str t) :: P, assembleValue (("type", JValue.str t) :: P), ?_, ?_, ?_⟩
  · rw [rawSchemaE_eq_dispatch O, rawDispatch_simple O t ht htm hndO]
  · unfold valueOfE
    rw [hreqS]
    simp [truthy]
  · refine assembled_deep_equal _ O hnds ⟨hndO, hsch, hifO, hthenO, helseO⟩
      ?_ ?_ ?_ ?_ ?_ ?_ ?_ ?_
    · rw [hS _ (by decide)]
      exact hPO _ (by decide)
    · rw [hS _ (by decide), hPnone "definitions" (by simp),
        jget_eq_undef_of_not_hasKey O _ hdO]
      rfl
    · rw [hS _ (by decide), hPnone "properties" (by simp),
        jget_eq_undef_of_not_hasKey O _ hpO]
      rfl
    · rw [hreqS, jget_eq_undef_of_not_hasKey O _ hrO]
      rfl
    · rw [hS _ (by decide)]
      exact hPO _ (by decide)
    · rw [hS _ (by decide)]
      exact hPO _ (by decide)
    · rw [hS _ (by decide)]
      exact hPO _ (by decide)
    · intro k hk7
      simp only [List.mem_cons, List.mem_singleton, List.not_mem_nil, or_false, not_or] at hk7
      by_cases hkt : k = "type"
      · subst hkt
        rw [jget_cons, if_pos rfl, ht]
      · rw [hS _ hkt]
        refine hPO _ ?_
        simp only [List.mem_cons, List.mem_singleton, List.not_mem_nil, or_false, not_or]
        exact ⟨hkt, hk7.2.1, hk7.2.2.1, hk7.2.2.2.1⟩

theorem roundTrip_base (O : JObj) (hndO : NodupKeys O)
    (hsch : hasKey O "$schema" = true → truthy (jget O "$schema") = true)
    (hifO : hasKey O "if" = true → truthy (jget O "if") = true)
    (hthenO : hasKey O "then" = true → truthy (jget O "then") = true)
    (helseO : hasKey O "else" = true → truthy (jget O "else") = true)
    (hk : BaseKindOK O) :
    ∃ s o, rawSchemaE (.obj O) = .ok s ∧ valueOfE s true = .ok o ∧ DeepEqualTop o O := by
  obtain ⟨htO, hpO, hdO, hrO⟩ := hk
  set P := jomit O ["type", "definitions", "properties", "required"] with hPdef
  have hndP : NodupKeys P := nodupKeys_jomit O _ hndO
  have hPnone : ∀ k, k ∈ (["type", "definitions", "properties", "required"] : List String) →
      jget P k = .undef := by
    intro k hk2
    exact jget_eq_undef_of_not_hasKey P _ (hPdef ▸ hasKey_jomit_mem O _ k hk2)
  have hPO : ∀ k, k ∉ (["type", "definitions", "properties", "required"] : List String) →
      jget P k = jget O k := by
    intro k hk2
    exact hPdef ▸ jget_jomit_not_mem O _ k hk2
  refine ⟨P, assembleValue P, ?_, ?_, ?_⟩
  · rw [rawSchemaE_eq_dispatch O, rawDispatch_base O htO]
  · unfold valueOfE
    rw [hPnone "required" (by simp)]
    simp [truthy]
  · refine assembled_deep_equal _ O hndP ⟨hndO, hsch, hifO, hthenO, helseO⟩
      ?_ ?_ ?_ ?_ ?_ ?_ ?_ ?_
    · exact hPO _ (by decide)
    · rw [hPnone "definitions" (by simp), jget_eq_undef_of_not_hasKey O _ hdO]
      rfl
    · rw [hPnone "properties" (by simp), jget_eq_undef_of_not_hasKey O _ hpO]
      rfl
    · rw [hPnone "required" (by simp), jget_eq_undef_of_not_hasKey O _ hrO]
      rfl
    · exact hPO _ (by decide)
    · exact hPO _ (by decide)
    · exact hPO _ (by decide)
    · intro k hk7
      simp only [List.mem_cons, List.mem_singleton, List.not_mem_nil, or_false, not_or] at hk7
      by_cases hkt : k = "type"
      · subst hkt
        rw [hPnone "type" (by simp), jget_eq_undef_of_not_hasKey O _ htO]
      · refine hPO _ ?_
        simp only [List.mem_cons, List.mem_singleton, List.not_mem_nil, or_false, not_or]
        exact ⟨hkt, hk7.2.1, hk7.2.2.1, hk7.2.2.2.1⟩

theorem roundTrip_object (O : JObj) (hndO : NodupKeys O)
    (hsch : hasKey O "$schema" = true → truthy (jget O "$schema") = true)
    (hifO : hasKey O "if" = true → truthy (jget O "if") = true)
    (hthenO : hasKey O "then" = true → truthy (jget O "then") = true)
    (helseO : hasKey O "else" = true → truthy (jget O "else") = true)
    (hk : ObjectKindOK O) :
    ∃ s o, rawSchemaE (.obj O) = .ok s ∧ valueOfE s true = .ok o ∧ DeepEqualTop o O := by
  obtain ⟨ht, hdefs, hprops2, hreq2⟩ := hk
  set P := jomit O ["type", "definitions", "properties", "required"] with hPdef
  have hndP : NodupKeys P := nodupKeys_jomit O _ hndO
  have hPO : ∀ k, k ∉ (["type", "definitions", "properties", "required"] : List String) →
      jget P k = jget O k := by
    intro k hk2
    exact hPdef ▸ jget_jomit_not_mem O _ k hk2
  have hknP : ∀ kk, kk ∈ (["type", "definitions", "properties", "required"] : List String) →
      kk ∉ keys P := by
    intro kk hm hc
    have hck := (mem_keys_iff_hasKey P kk).mp hc
    rw [hPdef, hasKey_jomit_mem O _ kk hm] at hck
    exact Bool.noConfusion hck
  set dv := JValue.arr ((toArrayJ (jget O "definitions")).getD []) with hdv
  set pv := JValue.arr ((toArrayJ (jget O "properties")).getD []) with hpv
  set rv := (if truthy (jget O "required") then jget O "required" else JValue.arr []) with hrv
  set s := ("type", JValue.str "object") :: ("definitions", dv) :: ("properties", pv) ::
    ("required", rv) :: P with hs
  have hnds : NodupKeys s := by
    rw [hs]
    show List.Nodup ("type" :: "definitions" :: "properties" :: "required" :: keys P)
    refine List.nodup_cons.mpr ⟨?_, List.nodup_cons.mpr ⟨?_, List.nodup_cons.mpr
      ⟨?_, List.nodup_cons.mpr ⟨hknP "required" (by simp), hndP⟩⟩⟩⟩
    · simp only [List.mem_cons, not_or]
      exact ⟨by decide, by decide, by decide, hknP "type" (by simp)⟩
    · simp only [List.mem_cons, not_or]
      exact ⟨by decide, by decide, hknP "definitions" (by simp)⟩
    · simp only [List.mem_cons, not_or]
      exact ⟨by decide, hknP "properties" (by simp)⟩
  have hget4 : ∀ k, k ≠ "type" → k ≠ "definitions" → k ≠ "properties" → k ≠ "required" →
      jget s k = jget P k := by
    intro k h1 h2 h3 h4
    rw [hs, jget_cons_pair, if_neg (fun hc => h1 hc.symm),
      jget_cons_pair, if_neg (fun hc => h2 hc.symm),
      jget_cons_pair, if_neg (fun hc => h3 hc.symm),
      jget_cons_pair, if_neg (fun hc => h4 hc.symm)]
  have hgetT : jget s "type" = JValue.str "object" := by
    rw [hs, jget_cons_pair, if_pos rfl]
  have hgetDv : jget s "definitions" = dv := by
    rw [hs, jget_cons_pair, if_neg (by decide), jget_cons_pair, if_pos rfl]
  have hgetPv : jget s "properties" = pv := by
    rw [hs, jget_cons_pair, if_neg (by decide), jget_cons_pair, if_neg (by decide),
      jget_cons_pair, if_pos rfl]
  have hgetRv : jget s "required" = rv := by
    rw [hs, jget_cons_pair, if_neg (by decide), jget_cons_pair, if_neg (by decide),
      jget_cons_pair, if_neg (by decide), jget_cons_pair, if_pos rfl]
  refine ⟨s, assembleValue s, ?_, ?_, ?_⟩
  · rw [rawSchemaE_eq_dispatch O, rawDispatch_object O ht hndO, hs]
    rfl
  · unfold valueOfE
    rw [hgetRv]
    rcases hreq2 with hA | ⟨l, hl, hlne, hls⟩
    · rw [hrv, jget_eq_undef_of_not_hasKey O _ hA]
      simp [truthy, allStrings, asArr]
    · rw [hrv, hl]
      simp [truthy, asArr, hls]
  · refine assembled_deep_equal _ O hnds ⟨hndO, hsch, hifO, hthenO, helseO⟩
      ?_ ?_ ?_ ?_ ?_ ?_ ?_ ?_
    · rw [hget4 _ (by decide) (by decide) (by decide) (by decide)]
      exact hPO _ (by decide)
    · rw [hgetDv]
      rcases hdefs with hA | ⟨m, hm, hmne, hFM⟩
      · rw [hdv, jget_eq_undef_of_not_hasKey O _ hA]
        rfl
      · rw [hdv, hm]
        have hlen : nonemptyCount (JValue.arr ((toArrayJ (JValue.obj m)).getD [])) = true := by
          have hml : ((toArrayJ (JValue.obj m)).getD []).length = m.length := by
            simp [toArrayJ]
          show decide (0 < ((toArrayJ (JValue.obj m)).getD []).length) = true
          rw [hml]
          exact decide_eq_true (List.length_pos.mpr hmne)
        rw [if_pos hlen]
        show JValue.obj (flatJ ((toArrayJ (JValue.obj m)).getD [])) = JValue.obj m
        rw [flatJ_toArray m hFM]
    · rw [hgetPv]
      rcases hprops2 with hA | ⟨m, hm, hmne, hFM⟩
      · rw [hpv, jget_eq_undef_of_not_hasKey O _ hA]
        rfl
      · rw [hpv, hm]
        have hlen : nonemptyCount (JValue.arr ((toArrayJ (JValue.obj m)).getD [])) = true := by
          have hml : ((toArrayJ (JValue.obj m)).getD []).length = m.length := by
            simp [toArrayJ]
          show decide (0 < ((toArrayJ (JValue.obj m)).getD []).length) = true
          rw [hml]
          exact decide_eq_true (List.length_pos.mpr hmne)
        rw [if_pos hlen]
        show JValue.obj (flatJ ((toArrayJ (JValue.obj m)).getD [])) = JValue.obj m
        rw [flatJ_toArray m hFM]
    · rw [hgetRv]
      rcases hreq2 with hA | ⟨l, hl, hlne, hls⟩
      · rw [hrv, jget_eq_undef_of_not_hasKey O _ hA]
        rfl
      · rw [hrv, hl]
        have hlp : 0 < l.length := List.length_pos.mpr hlne
        simp [truthy, asArr, hlp]
    · rw [hget4 _ (by decide) (by decide) (by decide) (by decide)]
      exact hPO _ (by decide)
    · rw [hget4 _ (by decide) (by decide) (by decide) (by decide)]
      exact hPO _ (by decide)
    · rw [hget4 _ (by decide) (by decide) (by decide) (by decide)]
      exact hPO _ (by decide)
    · intro k hk7
      simp only [List.mem_cons, List.mem_singleton, List.not_mem_nil, or_false, not_or] at hk7
      by_cases hkt : k = "type"
      · subst hkt
        rw [hgetT, ht]
      · rw [hget4 k hkt hk7.2.1 hk7.2.2.1 hk7.2.2.2.1]
        refine hPO _ ?_
        simp only [List.mem_cons, List.mem_singleton, List.not_mem_nil, or_false, not_or]
        exact ⟨hkt, hk7.2.1, hk7.2.2.1, hk7.2.2.2.1⟩

/-- Claim C9: round-trip of serialization through raw ingestion.  For every
serialized root document O of a supported kind (a simple kind: string,
integer, number, boolean, array; an object kind with optional properties,
definitions and required; or a type-less base fragment), ingesting O through
RawSchema yields a builder state whose root serialization is deep-equal to O
at every key.  The hypotheses record exactly the shape valueOf emits: unique
keys, truthy conditional fields when present, and the per-kind structural
fields. -/
theorem claim_C9_round_trip (O : JObj) (hser : SerializedOK O)
    (hkind : SimpleKindOK O ∨ ObjectKindOK O ∨ BaseKindOK O) :
    ∃ s o, rawSchemaE (.obj O) = .ok s ∧ valueOfE s true = .ok o ∧ DeepEqualTop o O := by
  obtain ⟨hndO, hsch, hifO, hthenO, helseO⟩ := hser
  rcases hkind with hk | hk | hk
  · exact roundTrip_simple O hndO hsch hifO hthenO helseO hk
  · exact roundTrip_object O hndO hsch hifO hthenO helseO hk
  · exact roundTrip_base O hndO hsch hifO hthenO helseO hk

/-- Claim C9, witnessed on a concrete serialized object document with a
definition, a property and a required name. -/
theorem claim_C9_round_trip_witness :
    ∃ s o,
      rawSchemaE (.obj
        [("$schema", .str "http://json-schema.org/draft-07/schema#"),
         ("type", .str "object"),
         ("definitions", .obj [("d", .obj [("type", JValue.str "number")])]),
         ("properties", .obj [("a", .obj [("type", JValue.str "string")])]),
         ("required", .arr [.str "a"])]) = .ok s ∧
      valueOfE s true = .ok o ∧
      DeepEqualTop o
        [("$schema", .str "http://json-schema.org/draft-07/schema#"),
         ("type", .str "object"),
         ("definitions", .obj [("d", .obj [("type", JValue.str "number")])]),
         ("properties", .obj [("a", .obj [("type", JValue.str "string")])]),
         ("required", .arr [.str "a"])] :=
  claim_C9_round_trip _
    ⟨by decide, by decide, by decide, by decide, by decide⟩
    (Or.inr (Or.inl ⟨rfl,
      Or.inr ⟨[("d", .obj [("type", JValue.str "number")])], rfl, by simp,
        by decide, by
          intro p hp
          simp only [List.mem_singleton] at hp
          subst hp
          exact ⟨[("type", JValue.str "number")], rfl, rfl, by decide⟩⟩,
      Or.inr ⟨[("a", .obj [("type", JValue.str "string")])], rfl, by simp,
        by decide, by
          intro p hp
          simp only [List.mem_singleton] at hp
          subst hp
          exact ⟨[("type", JValue.str "string")], rfl, rfl, by decide⟩⟩,
      Or.inr ⟨[.str "a"], rfl, by simp, rfl⟩⟩))

end FluentJS
